import Mathlib

/-!
Canvasse: the dual-buffer pixel model of `canvasse.js`

A shallow embedding of `reddit_place/public/static/js/place/canvasse.js`.

The module object is a record of mutable fields; every method becomes a
function on `State`.  The browser objects the module drives are modelled
as follows.

* `this.buffer` (an `ArrayBuffer`) is a list of bytes.  `this.readBuffer`
  (`Uint8ClampedArray`) reads those bytes as they are; `this.writeBuffer`
  (`Uint32Array`) stores a number as four bytes, low byte first (the byte
  order of every platform the script runs on), after reducing it modulo
  `2^32`; a store at an index outside the view is ignored, as typed arrays do.
* `this.el` / `this.ctx` (the display canvas and its 2d context) is a
  row-major list of RGBA pixels of size `width * height` together with the
  context's current `fillStyle`.  The list holds each pixel as the canvas
  shows it and reads it back.  A fill style is any paint: a function giving
  the pixel that results from painting over an existing pixel at a position.
  The canvas keeps its bitmap premultiplied by alpha in 8 bits, so
  `putImageData` leaves `canvasPixel p` where it is given `p`: the same bytes
  when alpha is 255, rounded colors when it is lower, `(0,0,0,0)` when it
  is 0.
* `this.img` (the Safari mirror) is an optional image whose `src` holds the
  encoded canvas.
* `new ImageData(data, sw, sh)` throws unless `data` is a non-empty multiple
  of four bytes long, forming `sh` rows of `sw` pixels; a throw is `none`.
* Numbers are integers.  The engine computes in double precision, which is
  exact on integers of magnitude up to `2^53`; `getIndexFromCoordsF64` is the
  index computation with the rounding of doubles, and agrees with
  `getIndexFromCoords` wherever no rounding occurs, as on every cell of a grid
  that `init` can allocate.
-/

namespace Canvasse

/-- One canvas pixel: four channel bytes in memory order. -/
structure Pixel where
  r : Nat
  g : Nat
  b : Nat
  a : Nat
deriving DecidableEq, Repr

/-- The transparent black pixel a cleared canvas holds. -/
def Pixel.transparent : Pixel := ⟨0, 0, 0, 0⟩

/-- A canvas fill style (a css color, gradient or pattern), resolved: painting
it at `(x, y)` over the pixel `p` leaves `paint x y p`. -/
structure Style where
  paint : Int → Int → Pixel → Pixel

/-- The fill style of a fresh 2d context: opaque black. -/
def Style.black : Style := ⟨fun _ _ _ => ⟨0, 0, 0, 255⟩⟩

/-- A style that replaces whatever is below it with one opaque pixel value. -/
def Style.solid (c : Pixel) : Style := ⟨fun _ _ _ => c⟩

/-- The result of `canvas.toDataURL()`: a lossless encoding of the bitmap. -/
structure DataURL where
  width : Nat
  height : Nat
  pixels : List Pixel
deriving DecidableEq, Repr

/-- The mirror `Image` element: its size attributes and its `src`. -/
structure Image where
  width : Nat
  height : Nat
  src : Option DataURL
deriving DecidableEq, Repr

/-- The fields of the module object after `init`. -/
structure State where
  width : Nat
  height : Nat
  /-- The bitmap of `el`, row-major, `width * height` pixels. -/
  display : List Pixel
  /-- The `ctx.fillStyle` of the display context. -/
  fillStyle : Style
  img : Option Image
  /-- The bytes of `buffer`, shared by `readBuffer` and `writeBuffer`. -/
  buffer : List Nat
  isBufferDirty : Bool
  isDisplayDirty : Bool

/-! ## Typed-array views -/

/-- ToUint32 of an integral number. -/
def toUint32 (color : Int) : Nat := (color % 2 ^ 32).toNat

/-- The store `view[i] = color` on a `Uint32Array` over the bytes `buf`. -/
def writeUint32 (buf : List Nat) (i : Int) (color : Int) : List Nat :=
  if 0 ≤ i ∧ i < ((buf.length / 4 : Nat) : Int) then
    let k := i.toNat
    let v := toUint32 color
    (((buf.set (4 * k) (v % 256)).set (4 * k + 1) (v / 2 ^ 8 % 256)).set
      (4 * k + 2) (v / 2 ^ 16 % 256)).set (4 * k + 3) (v / 2 ^ 24 % 256)
  else buf

/-- The pixel that the byte view holds at pixel index `k`: bytes
`4k .. 4k+3` read as red, green, blue, alpha. -/
def pixelAt (data : List Nat) (k : Nat) : Pixel :=
  ⟨data.getD (4 * k) 0, data.getD (4 * k + 1) 0, data.getD (4 * k + 2) 0,
    data.getD (4 * k + 3) 0⟩

/-- The pixel a packed AGBR color decodes to through the byte view. -/
def pixelOfColor (color : Int) : Pixel :=
  let v := toUint32 color
  ⟨v % 256, v / 2 ^ 8 % 256, v / 2 ^ 16 % 256, v / 2 ^ 24 % 256⟩

/-! ## Canvas primitives -/

/-- The premultiplied form in which a canvas keeps a pixel: each color
channel scaled by `alpha / 255`, rounded to the nearest byte. -/
def premultiply (p : Pixel) : Pixel :=
  ⟨(p.r * p.a + 127) / 255, (p.g * p.a + 127) / 255, (p.b * p.a + 127) / 255, p.a⟩

/-- The pixel a canvas shows for a premultiplied pixel: each color channel
scaled back by `255 / alpha`, rounded to the nearest byte (at most 255 on
bytes, a premultiplied channel being at most alpha); transparent black when
alpha is 0. -/
def unpremultiply (p : Pixel) : Pixel :=
  if p.a = 0 then Pixel.transparent
  else ⟨(p.r * 255 + p.a / 2) / p.a, (p.g * 255 + p.a / 2) / p.a,
    (p.b * 255 + p.a / 2) / p.a, p.a⟩

/-- What a canvas shows, and reads back, of a pixel put into it. -/
def canvasPixel (p : Pixel) : Pixel := unpremultiply (premultiply p)

/-- An `ImageData` object: its byte array and its dimensions. -/
structure ImageData where
  data : List Nat
  width : Nat
  height : Nat
deriving DecidableEq, Repr

/-- The constructor `new ImageData(data, sw, sh)`; `none` when it throws. -/
def ImageData.new (data : List Nat) (sw sh : Nat) : Option ImageData :=
  if data.length ≠ 0 ∧ data.length % 4 = 0 ∧ sw ≠ 0 ∧
      data.length / 4 % sw = 0 ∧ data.length / 4 / sw = sh then
    some ⟨data, sw, sh⟩
  else none

/-- Apply `f` to every pixel of a bitmap together with its index, counting
from `k`. -/
def mapPixels (f : Nat → Pixel → Pixel) : Nat → List Pixel → List Pixel
  | _, [] => []
  | k, p :: ps => f k p :: mapPixels f (k + 1) ps

/-- Whether the canvas pixel `(px, py)` lies in the rectangle with corner
`(x, y)` and signed extent `w`, `h` (a negative extent reaches backwards). -/
def inRect (x y w h : Int) (px py : Int) : Bool :=
  decide (min x (x + w) ≤ px ∧ px < max x (x + w) ∧
    min y (y + h) ≤ py ∧ py < max y (y + h))

/-- The call `ctx.fillRect(x, y, w, h)` on a bitmap `cw` pixels wide. -/
def fillRect (cw : Nat) (style : Style) (bitmap : List Pixel) (x y w h : Int) :
    List Pixel :=
  mapPixels (fun j p =>
    if inRect x y w h ((j % cw : Nat) : Int) ((j / cw : Nat) : Int) then
      style.paint ((j % cw : Nat) : Int) ((j / cw : Nat) : Int) p
    else p) 0 bitmap

/-- The call `ctx.clearRect(x, y, w, h)` on a bitmap `cw` pixels wide. -/
def clearRect (cw : Nat) (bitmap : List Pixel) (x y w h : Int) : List Pixel :=
  mapPixels (fun j p =>
    if inRect x y w h ((j % cw : Nat) : Int) ((j / cw : Nat) : Int) then
      Pixel.transparent
    else p) 0 bitmap

/-- The call `ctx.putImageData(imageData, 0, 0)` on a bitmap `cw` pixels
wide: every canvas pixel that the image covers takes the image's bytes, as
the canvas keeps them. -/
def putImageData (cw : Nat) (bitmap : List Pixel) (image : ImageData) :
    List Pixel :=
  mapPixels (fun j p =>
    if j % cw < image.width ∧ j / cw < image.height then
      canvasPixel (pixelAt image.data (j / cw * image.width + j % cw))
    else p) 0 bitmap

/-- The call `el.toDataURL()`. -/
def toDataURL (s : State) : DataURL := ⟨s.width, s.height, s.display⟩

/-! ## The methods of the module -/

/-- The method `init(el, width, height)` when it returns; `safari` is the
outcome of the user agent test.  Sizing the canvas clears its bitmap and
resets its context.  (A call in which `new ArrayBuffer` throws has by then
assigned `width` and `height` and sized the canvas, and keeps the old store;
that outcome is not a function of the arguments and is not part of `init`.) -/
def init (s : State) (width height : Nat) (safari : Bool) : State :=
  { s with
    width := width
    height := height
    display := List.replicate (width * height) Pixel.transparent
    fillStyle := Style.black
    buffer := List.replicate (width * height * 4) 0
    img := if safari then some ⟨width, height, none⟩ else s.img }

/-- The method `getIndexFromCoords(x, y)`, on the integers: what the engine
computes as long as neither the product nor the sum is rounded (see
`getIndexFromCoordsF64`). -/
def getIndexFromCoords (s : State) (x y : Int) : Int :=
  y * (s.width : Int) + x

/-- The exponent of the spacing of doubles around the natural number `m`:
the least `e` with `m < 2 ^ (53 + e)`, searched upwards from `e`. -/
def f64Exponent : Nat → Nat → Nat → Nat
  | 0, _, e => e
  | fuel + 1, m, e => if m < 2 ^ (53 + e) then e else f64Exponent fuel m (e + 1)

/-- The double nearest to the natural number `m`, ties going to the even
significand; finite doubles stay below `2 ^ 1024`. -/
def roundF64Nat (m : Nat) : Nat :=
  let e := f64Exponent 971 m 0
  if e = 0 then m
  else if m % 2 ^ e > 2 ^ (e - 1) ∨ (m % 2 ^ e = 2 ^ (e - 1) ∧ m / 2 ^ e % 2 = 1) then
    (m / 2 ^ e + 1) * 2 ^ e
  else m / 2 ^ e * 2 ^ e

/-- The double nearest to the integer `n`. -/
def roundF64 (n : Int) : Int :=
  if 0 ≤ n then (roundF64Nat n.natAbs : Int) else -(roundF64Nat n.natAbs : Int)

/-- The method `getIndexFromCoords(x, y)` as the engine computes it on
integral doubles: the product and then the sum, each rounded to a double. -/
def getIndexFromCoordsF64 (s : State) (x y : Int) : Int :=
  roundF64 (roundF64 (y * (s.width : Int)) + x)

/-- The method `setBufferState(i, color)`. -/
def setBufferState (s : State) (i : Int) (color : Int) : State :=
  { s with
    buffer := writeUint32 s.buffer i color
    isBufferDirty := true }

/-- The method `drawTileToBuffer(x, y, color)`. -/
def drawTileToBuffer (s : State) (x y : Int) (color : Int) : State :=
  let i := getIndexFromCoords s x y
  setBufferState s i color

/-- The method `drawTileAt(x, y, color)`. -/
def drawTileAt (s : State) (x y : Int) (color : Int) : State :=
  drawTileToBuffer s x y color

/-- The method `drawTileToDisplay(x, y, color)`. -/
def drawTileToDisplay (s : State) (x y : Int) (color : Style) : State :=
  { s with
    fillStyle := color
    display := fillRect s.width color s.display x y 1 1
    isDisplayDirty := true }

/-- The method `drawRectToDisplay(x, y, width, height, color)`. -/
def drawRectToDisplay (s : State) (x y width height : Int) (color : Style) :
    State :=
  { s with
    fillStyle := color
    display := fillRect s.width color s.display x y width height
    isDisplayDirty := true }

/-- The method `clearRectFromDisplay(x, y, width, height)`. -/
def clearRectFromDisplay (s : State) (x y width height : Int) : State :=
  { s with
    display := clearRect s.width s.display x y width height
    isDisplayDirty := true }

/-- The method `drawBufferToDisplay()`; `none` when the `ImageData`
constructor throws, which happens before any field is touched. -/
def drawBufferToDisplay (s : State) : Option State :=
  match ImageData.new s.buffer s.width s.height with
  | none => none
  | some imageData =>
    let s1 : State :=
      { s with
        display := putImageData s.width s.display imageData
        isBufferDirty := false }
    some (match s1.img with
      | some im => { s1 with img := some { im with src := some (toDataURL s1) } }
      | none => s1)

/-- The method `tick()`. -/
def tick (s : State) : Option State :=
  if s.isBufferDirty then drawBufferToDisplay s else some s

/-! ## Well-formed states -/

/-- The shape `init` gives the object for a non-empty grid, and every method
keeps: the backing store has four bytes per pixel and the display bitmap one
pixel per grid cell. -/
structure State.WF (s : State) : Prop where
  width_pos : 0 < s.width
  height_pos : 0 < s.height
  buffer_length : s.buffer.length = s.width * s.height * 4
  display_length : s.display.length = s.width * s.height

/-- The fields of the object literal, before `init` has bound a canvas. -/
def initial : State := ⟨0, 0, [], Style.black, none, [], false, false⟩

/-- A grid initialised once, on a platform without the mirror. -/
def fresh (width height : Nat) : State := init initial width height false

/-- A grid initialised once, on a platform that needs the mirror. -/
def freshSafari (width height : Nat) : State := init initial width height true

/-- What the byte view of the backing store holds, pixel by pixel, over the
whole grid. -/
def render (s : State) : List Pixel :=
  (List.range (s.width * s.height)).map (pixelAt s.buffer)

/-- What the display shows once the backing store is blitted to it: the
canvas's rendering of every pixel of the store. -/
def blit (s : State) : List Pixel :=
  (List.range (s.width * s.height)).map fun j => canvasPixel (pixelAt s.buffer j)

/-- A direct draw on the display canvas, with its arguments. -/
inductive DirectDraw where
  | tile (x y : Int) (color : Style)
  | rect (x y width height : Int) (color : Style)
  | clear (x y width height : Int)

/-- Run one direct draw. -/
def DirectDraw.run (s : State) : DirectDraw → State
  | .tile x y color => drawTileToDisplay s x y color
  | .rect x y width height color => drawRectToDisplay s x y width height color
  | .clear x y width height => clearRectFromDisplay s x y width height

/-- Run a sequence of direct draws, first to last. -/
def runDirect (s : State) (ds : List DirectDraw) : State :=
  ds.foldl DirectDraw.run s

/-- A write into the backing store, by flat index or by coordinates. -/
inductive Write where
  | set (i : Int) (color : Int)
  | tile (x y : Int) (color : Int)

/-- Run one buffer write. -/
def Write.run (s : State) : Write → State
  | .set i color => setBufferState s i color
  | .tile x y color => drawTileToBuffer s x y color

/-- The flat index a write targets. -/
def Write.index (s : State) : Write → Int
  | .set i _ => i
  | .tile x y _ => getIndexFromCoords s x y

/-- The packed color a write stores. -/
def Write.color : Write → Int
  | .set _ color => color
  | .tile _ _ color => color

/-- Whether a write respects the precondition of the grid: its index in
`[0, width*height)`, or its coordinates in `[0, width) x [0, height)`. -/
def Write.inRange (s : State) : Write → Bool
  | .set i _ => decide (0 ≤ i ∧ i < (s.width : Int) * (s.height : Int))
  | .tile x y _ => decide (0 ≤ x ∧ x < (s.width : Int) ∧ 0 ≤ y ∧ y < (s.height : Int))

/-- Run a sequence of buffer writes, first to last. -/
def runWrites (s : State) (ws : List Write) : State :=
  ws.foldl Write.run s

/-- The last write of a sequence that targets pixel index `j`, if any. -/
def lastWriteAt (s : State) (ws : List Write) (j : Nat) : Option Write :=
  (ws.filter fun w => decide (w.index s = (j : Int))).getLast?

/-- The pixel the byte view holds at index `j` after a sequence of in-range
writes on `s`: the color of the last write that targets `j`, decoded, or what
the store held before where no write targets `j`. -/
def lastWritten (s : State) (ws : List Write) (j : Nat) : Pixel :=
  match lastWriteAt s ws j with
  | some w => pixelOfColor w.color
  | none => pixelAt s.buffer j

/-- A call of any method other than `drawBufferToDisplay` and `tick`. -/
inductive Op where
  | init (width height : Nat) (safari : Bool)
  | setBufferState (i : Int) (color : Int)
  | drawTileToBuffer (x y : Int) (color : Int)
  | drawTileAt (x y : Int) (color : Int)
  | drawTileToDisplay (x y : Int) (color : Style)
  | drawRectToDisplay (x y width height : Int) (color : Style)
  | clearRectFromDisplay (x y width height : Int)

/-- Run one such call. -/
def Op.run (s : State) : Op → State
  | .init width height safari => Canvasse.init s width height safari
  | .setBufferState i color => Canvasse.setBufferState s i color
  | .drawTileToBuffer x y color => Canvasse.drawTileToBuffer s x y color
  | .drawTileAt x y color => Canvasse.drawTileAt s x y color
  | .drawTileToDisplay x y color => Canvasse.drawTileToDisplay s x y color
  | .drawRectToDisplay x y width height color =>
    Canvasse.drawRectToDisplay s x y width height color
  | .clearRectFromDisplay x y width height =>
    Canvasse.clearRectFromDisplay s x y width height

/-- Run a sequence of such calls, first to last. -/
def runOps (s : State) (ops : List Op) : State :=
  ops.foldl Op.run s

/-- An opaque red style, as the css color `red` resolves. -/
def red : Style := Style.solid ⟨255, 0, 0, 255⟩

/-- A fresh 1x1 grid whose only display pixel was painted red directly: the
buffer is clean and the display differs from it. -/
def paintedClean : State := drawRectToDisplay (fresh 1 1) 0 0 1 1 red

/-- The read `view[k]` on a `Uint32Array` over the bytes `buf`: four bytes,
low byte first. -/
def readUint32 (buf : List Nat) (k : Nat) : Nat :=
  buf.getD (4 * k) 0 + buf.getD (4 * k + 1) 0 * 2 ^ 8 + buf.getD (4 * k + 2) 0 * 2 ^ 16
    + buf.getD (4 * k + 3) 0 * 2 ^ 24

/-- A call of any method of the module that changes state. -/
inductive Call where
  | op (o : Op)
  | tick
  | drawBufferToDisplay

/-- Run one call on an initialised object; `none` when it throws. -/
def Call.run (s : State) : Call → Option State
  | .op o => some (o.run s)
  | .tick => Canvasse.tick s
  | .drawBufferToDisplay => Canvasse.drawBufferToDisplay s

/-- The fields after a call: `tick` and `drawBufferToDisplay` throw, when
they do, in the `ImageData` constructor, before any field is assigned, so a
throw leaves the fields as they were; `init` is the call that returns. -/
def Call.step (s : State) (c : Call) : State :=
  (c.run s).getD s

/-- One call on the module object, `none` being the object before `init`.
Before `init` there is no context and there are no views: `tick` sees a clean
buffer and does nothing, and every other call but `init` throws on its first
statement, so the fields stay those of the literal. -/
def stepObject : Option State → Call → Option State
  | none, .op (.init width height safari) => some (init initial width height safari)
  | none, _ => none
  | some s, c => some (c.step s)

/-- Run a sequence of calls on the module object, first to last. -/
def runCalls (o : Option State) (cs : List Call) : Option State :=
  cs.foldl stepObject o

/-- The flag `isDisplayDirty` of the module object; false in the literal. -/
def objectDisplayDirty : Option State → Bool
  | none => false
  | some s => s.isDisplayDirty

/-- A grid initialised once and then filled all over by
`drawRectToDisplay(0, 0, width, height, style)`. -/
def filledGrid (width height : Nat) (safari : Bool) (style : Style) : State :=
  drawRectToDisplay (init initial width height safari) 0 0 width height style

/-- The shape that `init` gives the store and the bitmap for any dimensions. -/
def State.Shaped (s : State) : Prop :=
  s.buffer.length = s.width * s.height * 4 ∧ s.display.length = s.width * s.height

/-- The invariant of the module object: an initialised object is shaped. -/
def objectShaped : Option State → Prop
  | none => True
  | some s => s.Shaped

/-! ## Lemmas on the primitives -/

theorem length_mapPixels (f : Nat → Pixel → Pixel) (l : List Pixel) (k : Nat) :
    (mapPixels f k l).length = l.length := by
  induction l generalizing k with
  | nil => rfl
  | cons p ps ih => simp [mapPixels, ih]

theorem getElem?_mapPixels (f : Nat → Pixel → Pixel) (l : List Pixel) (k j : Nat) :
    (mapPixels f k l)[j]? = (l[j]?).map (f (k + j)) := by
  induction l generalizing k j with
  | nil => simp [mapPixels]
  | cons p ps ih =>
    cases j with
    | zero => simp [mapPixels]
    | succ j =>
      have e : k + 1 + j = k + (j + 1) := by omega
      simp only [mapPixels, List.getElem?_cons_succ, ih, e]

theorem length_writeUint32 (buf : List Nat) (i color : Int) :
    (writeUint32 buf i color).length = buf.length := by
  unfold writeUint32
  split <;> simp

/-- A store leaves every byte outside the four of its word as it was. -/
theorem getElem?_writeUint32_of_ne (buf : List Nat) (i color : Int) (j : Nat)
    (h : j / 4 ≠ i.toNat) : (writeUint32 buf i color)[j]? = buf[j]? := by
  unfold writeUint32
  split
  · have h0 : 4 * i.toNat ≠ j := by omega
    have h1 : 4 * i.toNat + 1 ≠ j := by omega
    have h2 : 4 * i.toNat + 2 ≠ j := by omega
    have h3 : 4 * i.toNat + 3 ≠ j := by omega
    simp [List.getElem?_set, h0, h1, h2, h3]
  · rfl

/-- An in-range store leaves the four bytes of the color, low byte first. -/
theorem pixelAt_writeUint32_self (buf : List Nat) (i color : Int)
    (h0 : 0 ≤ i) (h1 : i < ((buf.length / 4 : Nat) : Int)) :
    pixelAt (writeUint32 buf i color) i.toNat = pixelOfColor color := by
  have hk : i.toNat < buf.length / 4 := by omega
  have hb : 4 * i.toNat + 3 < buf.length := by omega
  unfold writeUint32 pixelAt pixelOfColor
  rw [if_pos ⟨h0, h1⟩]
  simp only [List.getD_eq_getElem?_getD, List.getElem?_set, List.length_set]
  have e1 : ¬ (4 * i.toNat + 3 = 4 * i.toNat) := by omega
  have e2 : ¬ (4 * i.toNat + 2 = 4 * i.toNat) := by omega
  have e3 : ¬ (4 * i.toNat + 1 = 4 * i.toNat) := by omega
  have e4 : ¬ (4 * i.toNat + 3 = 4 * i.toNat + 1) := by omega
  have e5 : ¬ (4 * i.toNat + 2 = 4 * i.toNat + 1) := by omega
  have e6 : ¬ (4 * i.toNat + 3 = 4 * i.toNat + 2) := by omega
  have l0 : 4 * i.toNat < buf.length := by omega
  have l1 : 4 * i.toNat + 1 < buf.length := by omega
  have l2 : 4 * i.toNat + 2 < buf.length := by omega
  simp [e1, e2, e3, e4, e5, e6, l0, l1, l2, hb]

theorem pixelAt_writeUint32_of_ne (buf : List Nat) (i color : Int) (k : Nat)
    (h : k ≠ i.toNat) : pixelAt (writeUint32 buf i color) k = pixelAt buf k := by
  unfold pixelAt
  simp only [List.getD_eq_getElem?_getD]
  have h0 : (4 * k) / 4 ≠ i.toNat := by omega
  have h1 : (4 * k + 1) / 4 ≠ i.toNat := by omega
  have h2 : (4 * k + 2) / 4 ≠ i.toNat := by omega
  have h3 : (4 * k + 3) / 4 ≠ i.toNat := by omega
  rw [getElem?_writeUint32_of_ne buf i color (4 * k) h0,
    getElem?_writeUint32_of_ne buf i color (4 * k + 1) h1,
    getElem?_writeUint32_of_ne buf i color (4 * k + 2) h2,
    getElem?_writeUint32_of_ne buf i color (4 * k + 3) h3]

/-- A store at an index outside the view changes nothing. -/
theorem writeUint32_out_of_range (buf : List Nat) (i color : Int)
    (h : i < 0 ∨ ((buf.length / 4 : Nat) : Int) ≤ i) : writeUint32 buf i color = buf := by
  unfold writeUint32
  rw [if_neg]
  omega

/-- The packed word `a * 2^24 + b * 2^16 + g * 2^8 + r` decodes to `(r, g, b, a)`. -/
theorem pixelOfColor_pack (r g b a : Nat) (hr : r ≤ 255) (hg : g ≤ 255) (hb : b ≤ 255)
    (ha : a ≤ 255) :
    pixelOfColor ((a : Int) * 2 ^ 24 + (b : Int) * 2 ^ 16 + (g : Int) * 2 ^ 8 + (r : Int))
      = ⟨r, g, b, a⟩ := by
  have hv : toUint32 ((a : Int) * 2 ^ 24 + (b : Int) * 2 ^ 16 + (g : Int) * 2 ^ 8 + (r : Int))
      = a * 2 ^ 24 + b * 2 ^ 16 + g * 2 ^ 8 + r := by
    unfold toUint32
    omega
  unfold pixelOfColor
  rw [hv]
  simp only [Pixel.mk.injEq]
  refine ⟨?_, ?_, ?_, ?_⟩ <;> omega

/-! ## Lemmas on the flush -/

theorem ImageData_new_of_WF (s : State) (h : s.WF) :
    ImageData.new s.buffer s.width s.height = some ⟨s.buffer, s.width, s.height⟩ := by
  have hw := h.width_pos
  have hh := h.height_pos
  have hpos : 0 < s.width * s.height := Nat.mul_pos hw hh
  unfold ImageData.new
  rw [if_pos]
  rw [h.buffer_length]
  refine ⟨by omega, by omega, by omega, ?_, ?_⟩
  · rw [Nat.mul_div_cancel _ (by decide : 0 < 4)]
    exact Nat.mul_mod_right _ _
  · rw [Nat.mul_div_cancel _ (by decide : 0 < 4)]
    exact Nat.mul_div_cancel_left _ hw

/-- Putting an image of the canvas's own size replaces the whole bitmap by
the image's pixels. -/
theorem putImageData_full (w h : Nat) (bitmap : List Pixel) (data : List Nat)
    (hw : 0 < w) (hlen : bitmap.length = w * h) :
    putImageData w bitmap ⟨data, w, h⟩
      = (List.range (w * h)).map fun j => canvasPixel (pixelAt data j) := by
  apply List.ext_getElem?
  intro j
  unfold putImageData
  rw [getElem?_mapPixels]
  by_cases hj : j < w * h
  · have hb : j < bitmap.length := by omega
    have hx : j % w < w := Nat.mod_lt _ hw
    have hy : j / w < h := by
      apply Nat.div_lt_of_lt_mul
      exact hj
    have e : j / w * w + j % w = j := by
      rw [Nat.mul_comm]
      exact Nat.div_add_mod j w
    simp [List.getElem?_eq_getElem hb, hx, hy, e, hj, List.getElem?_range]
  · have hb : bitmap.length ≤ j := by omega
    have hr : (List.range (w * h)).length ≤ j := by simpa using hb.trans_eq' hlen.symm
    simp [List.getElem?_eq_none hb, List.getElem?_eq_none hr]

/-- On a well-formed state the flush does not throw: it replaces the display
by the canvas's rendering of the backing store, clears `isBufferDirty` and
re-encodes the mirror, when there is one, from the new display. -/
theorem drawBufferToDisplay_of_WF (s : State) (h : s.WF) :
    drawBufferToDisplay s = some
      { s with
        display := blit s
        isBufferDirty := false
        img := s.img.map fun im =>
          { im with src := some ⟨s.width, s.height, blit s⟩ } } := by
  unfold drawBufferToDisplay
  rw [ImageData_new_of_WF s h]
  simp only [putImageData_full s.width s.height s.display s.buffer h.width_pos
    h.display_length]
  cases hi : s.img <;> simp [toDataURL, blit]

theorem length_render (s : State) : (render s).length = s.width * s.height := by
  simp [render]

theorem length_blit (s : State) : (blit s).length = s.width * s.height := by
  simp [blit]

theorem getElem?_blit (s : State) (j : Nat) (hj : j < s.width * s.height) :
    (blit s)[j]? = some (canvasPixel (pixelAt s.buffer j)) := by
  simp [blit, List.getElem?_range, hj]

/-- A canvas keeps an opaque pixel as it is. -/
theorem canvasPixel_of_alpha_full (p : Pixel) (h : p.a = 255) : canvasPixel p = p := by
  obtain ⟨r, g, b, a⟩ := p
  simp only at h
  subst h
  have e : ∀ c : Nat, ((c * 255 + 127) / 255 * 255 + 255 / 2) / 255 = c := by
    intro c
    omega
  simp only [canvasPixel, premultiply, unpremultiply]
  rw [if_neg (by decide)]
  simp only [e]

/-- A canvas shows transparent black for every pixel whose alpha is 0. -/
theorem canvasPixel_clear (p : Pixel) (h : p.a = 0) : canvasPixel p = Pixel.transparent := by
  simp [canvasPixel, premultiply, unpremultiply, h]

theorem getElem?_render (s : State) (j : Nat) (hj : j < s.width * s.height) :
    (render s)[j]? = some (pixelAt s.buffer j) := by
  simp [render, List.getElem?_range, hj]

/-! ## Well-formedness is kept -/

theorem init_WF (s : State) (width height : Nat) (safari : Bool)
    (hw : 0 < width) (hh : 0 < height) : (init s width height safari).WF :=
  ⟨hw, hh, by simp [init], by simp [init]⟩

theorem setBufferState_WF (s : State) (i color : Int) (h : s.WF) :
    (setBufferState s i color).WF :=
  ⟨h.width_pos, h.height_pos, by simpa [setBufferState, length_writeUint32] using h.buffer_length,
    h.display_length⟩

theorem drawTileToBuffer_WF (s : State) (x y color : Int) (h : s.WF) :
    (drawTileToBuffer s x y color).WF :=
  setBufferState_WF s _ color h

theorem drawTileToDisplay_WF (s : State) (x y : Int) (color : Style) (h : s.WF) :
    (drawTileToDisplay s x y color).WF :=
  ⟨h.width_pos, h.height_pos, h.buffer_length,
    by simpa [drawTileToDisplay, fillRect, length_mapPixels] using h.display_length⟩

theorem drawRectToDisplay_WF (s : State) (x y width height : Int) (color : Style)
    (h : s.WF) : (drawRectToDisplay s x y width height color).WF :=
  ⟨h.width_pos, h.height_pos, h.buffer_length,
    by simpa [drawRectToDisplay, fillRect, length_mapPixels] using h.display_length⟩

theorem clearRectFromDisplay_WF (s : State) (x y width height : Int) (h : s.WF) :
    (clearRectFromDisplay s x y width height).WF :=
  ⟨h.width_pos, h.height_pos, h.buffer_length,
    by simpa [clearRectFromDisplay, clearRect, length_mapPixels] using h.display_length⟩

theorem DirectDraw.run_keeps_WF (s : State) (d : DirectDraw) (h : s.WF) : (d.run s).WF := by
  cases d with
  | tile x y color => exact drawTileToDisplay_WF s x y color h
  | rect x y width height color => exact drawRectToDisplay_WF s x y width height color h
  | clear x y width height => exact clearRectFromDisplay_WF s x y width height h

theorem runDirect_WF (ds : List DirectDraw) (s : State) (h : s.WF) : (runDirect s ds).WF := by
  induction ds generalizing s with
  | nil => exact h
  | cons d ds ih => exact ih (d.run s) (DirectDraw.run_keeps_WF s d h)

theorem drawBufferToDisplay_WF (s s' : State) (h : s.WF)
    (hs : drawBufferToDisplay s = some s') : s'.WF := by
  rw [drawBufferToDisplay_of_WF s h] at hs
  cases hs
  exact ⟨h.width_pos, h.height_pos, h.buffer_length, length_blit s⟩

/-! ## Frames of the direct draws and of the writes -/

theorem DirectDraw.run_frame (s : State) (d : DirectDraw) :
    (d.run s).buffer = s.buffer ∧ (d.run s).width = s.width ∧
      (d.run s).height = s.height ∧ (d.run s).isBufferDirty = s.isBufferDirty := by
  cases d <;> exact ⟨rfl, rfl, rfl, rfl⟩

theorem runDirect_frame (ds : List DirectDraw) (s : State) :
    (runDirect s ds).buffer = s.buffer ∧ (runDirect s ds).width = s.width ∧
      (runDirect s ds).height = s.height ∧
      (runDirect s ds).isBufferDirty = s.isBufferDirty := by
  induction ds generalizing s with
  | nil => exact ⟨rfl, rfl, rfl, rfl⟩
  | cons d ds ih =>
    obtain ⟨h1, h2, h3, h4⟩ := ih (d.run s)
    obtain ⟨g1, g2, g3, g4⟩ := DirectDraw.run_frame s d
    exact ⟨h1.trans g1, h2.trans g2, h3.trans g3, h4.trans g4⟩

theorem Write.run_eq (s : State) (w : Write) :
    w.run s = setBufferState s (w.index s) w.color := by
  cases w <;> rfl

theorem Write.run_preserves_WF (s : State) (w : Write) (h : s.WF) : (w.run s).WF := by
  rw [Write.run_eq]
  exact setBufferState_WF s _ _ h

theorem runWrites_WF (ws : List Write) (s : State) (h : s.WF) : (runWrites s ws).WF := by
  induction ws generalizing s with
  | nil => exact h
  | cons w ws ih => exact ih (w.run s) (Write.run_preserves_WF s w h)

/-- On the grid the flat index lies in `[0, width*height)`. -/
theorem getIndexFromCoords_range (s : State) (x y : Int) (hx0 : 0 ≤ x)
    (hx : x < (s.width : Int)) (hy0 : 0 ≤ y) (hy : y < (s.height : Int)) :
    0 ≤ getIndexFromCoords s x y ∧
      getIndexFromCoords s x y < (s.width : Int) * (s.height : Int) := by
  unfold getIndexFromCoords
  have h0 : 0 ≤ y * (s.width : Int) := Int.mul_nonneg hy0 (by omega)
  have h1 : y + 1 ≤ (s.height : Int) := by omega
  have h2 : (y + 1) * (s.width : Int) ≤ (s.height : Int) * (s.width : Int) :=
    Int.mul_le_mul_of_nonneg_right h1 (by omega)
  have h3 : (y + 1) * (s.width : Int) = y * (s.width : Int) + s.width := by ring
  have h4 : (s.height : Int) * (s.width : Int) = (s.width : Int) * (s.height : Int) := by ring
  constructor <;> omega

theorem Write.index_range (s : State) (w : Write) (h : w.inRange s = true) :
    0 ≤ w.index s ∧ w.index s < (s.width : Int) * (s.height : Int) := by
  cases w with
  | set i color => simpa [Write.inRange, Write.index] using h
  | tile x y color =>
    simp only [Write.inRange, decide_eq_true_eq] at h
    exact getIndexFromCoords_range s x y h.1 h.2.1 h.2.2.1 h.2.2.2

/-- An index of the grid is an index of the packed-word view. -/
theorem index_lt_words (s : State) (i : Int) (hlen : s.buffer.length = s.width * s.height * 4)
    (hi : i < (s.width : Int) * (s.height : Int)) :
    i < ((s.buffer.length / 4 : Nat) : Int) := by
  rw [hlen, Nat.mul_div_cancel _ (by decide : 0 < 4)]
  push_cast
  exact hi

/-- The pixel read at `j` after an in-range store at `i`. -/
theorem pixelAt_setBufferState (s : State) (i color : Int) (j : Nat)
    (hlen : s.buffer.length = s.width * s.height * 4)
    (hi0 : 0 ≤ i) (hi : i < (s.width : Int) * (s.height : Int)) :
    pixelAt (setBufferState s i color).buffer j =
      if i = (j : Int) then pixelOfColor color else pixelAt s.buffer j := by
  simp only [setBufferState]
  by_cases hij : i = (j : Int)
  · rw [if_pos hij]
    have hj : j = i.toNat := by omega
    rw [hj]
    exact pixelAt_writeUint32_self s.buffer i color hi0 (index_lt_words s i hlen hi)
  · rw [if_neg hij]
    exact pixelAt_writeUint32_of_ne s.buffer i color j (by omega)

theorem Write.index_congr (s t : State) (w : Write) (h : t.width = s.width) :
    w.index t = w.index s := by
  cases w with
  | set i color => rfl
  | tile x y color => simp [Write.index, getIndexFromCoords, h]

/-- A cell of the grid has a flat index below `width * height`. -/
theorem cell_lt (w h x y : Nat) (hx : x < w) (hy : y < h) : y * w + x < w * h := by
  have h1 : (y + 1) * w ≤ h * w := Nat.mul_le_mul_right w hy
  have h2 : (y + 1) * w = y * w + w := by ring
  have h3 : h * w = w * h := Nat.mul_comm h w
  omega

theorem runWrites_frame (ws : List Write) (s : State) :
    (runWrites s ws).width = s.width ∧ (runWrites s ws).height = s.height ∧
      (runWrites s ws).display = s.display ∧
      (runWrites s ws).isDisplayDirty = s.isDisplayDirty := by
  induction ws generalizing s with
  | nil => exact ⟨rfl, rfl, rfl, rfl⟩
  | cons w ws ih =>
    obtain ⟨h1, h2, h3, h4⟩ := ih (w.run s)
    have e : runWrites s (w :: ws) = runWrites (w.run s) ws := rfl
    rw [e, h1, h2, h3, h4, Write.run_eq]
    exact ⟨rfl, rfl, rfl, rfl⟩

theorem runWrites_append (s : State) (ws : List Write) (w : Write) :
    runWrites s (ws ++ [w]) = w.run (runWrites s ws) := by
  simp [runWrites, List.foldl_append]

/-- After at least one write the buffer is dirty. -/
theorem runWrites_dirty (ws : List Write) (s : State)
    (h : ws ≠ [] ∨ s.isBufferDirty = true) : (runWrites s ws).isBufferDirty = true := by
  induction ws generalizing s with
  | nil =>
    rcases h with h | h
    · exact absurd rfl h
    · exact h
  | cons w ws ih =>
    apply ih (w.run s)
    right
    rw [Write.run_eq]
    rfl

/-- The pixel the byte view holds at `j` after a sequence of in-range writes:
the color of the last write that targets `j`, or the old pixel. -/
theorem pixelAt_runWrites (s : State) (h : s.WF) (ws : List Write)
    (hr : ∀ w ∈ ws, w.inRange s = true) (j : Nat) :
    pixelAt (runWrites s ws).buffer j =
      match lastWriteAt s ws j with
      | some w => pixelOfColor w.color
      | none => pixelAt s.buffer j := by
  induction ws using List.reverseRecOn with
  | nil => simp [runWrites, lastWriteAt]
  | append_singleton ws w ih =>
    have ih' := ih (fun v hv => hr v (List.mem_append_left _ hv))
    have hw : w.inRange s = true := hr w (by simp)
    obtain ⟨hi0, hi⟩ := Write.index_range s w hw
    obtain ⟨fw, fh, _, _⟩ := runWrites_frame ws s
    have hwf := runWrites_WF ws s h
    have hidx : w.index (runWrites s ws) = w.index s := Write.index_congr s _ w fw
    rw [runWrites_append, Write.run_eq, hidx,
      pixelAt_setBufferState _ _ _ _ hwf.buffer_length hi0 (by rw [fw, fh]; exact hi), ih']
    unfold lastWriteAt
    rw [List.filter_append, List.getLast?_append]
    by_cases hj : w.index s = (j : Int)
    · simp [List.filter_cons, hj]
    · simp [List.filter_cons, hj]

theorem pixelAt_runWrites_lastWritten (s : State) (h : s.WF) (ws : List Write)
    (hr : ∀ w ∈ ws, w.inRange s = true) (j : Nat) :
    pixelAt (runWrites s ws).buffer j = lastWritten s ws j :=
  pixelAt_runWrites s h ws hr j

/-- Doubles are exact on the naturals below `2^53`. -/
theorem roundF64Nat_exact (m : Nat) (h : m < 2 ^ 53) : roundF64Nat m = m := by
  have he : f64Exponent 971 m 0 = 0 := by
    show f64Exponent (970 + 1) m 0 = 0
    unfold f64Exponent
    rw [if_pos h]
  show (if f64Exponent 971 m 0 = 0 then m else _) = m
  rw [if_pos he]

/-- Doubles are exact on the integers of magnitude below `2^53`. -/
theorem roundF64_exact (n : Int) (h : n.natAbs < 2 ^ 53) : roundF64 n = n := by
  unfold roundF64
  rw [roundF64Nat_exact _ h]
  split <;> omega

/-- Where neither the product nor the sum reaches `2^53` in magnitude, the
engine computes the integer index. -/
theorem getIndexFromCoordsF64_exact (s : State) (x y : Int)
    (h1 : (y * (s.width : Int)).natAbs < 2 ^ 53)
    (h2 : (y * (s.width : Int) + x).natAbs < 2 ^ 53) :
    getIndexFromCoordsF64 s x y = getIndexFromCoords s x y := by
  unfold getIndexFromCoordsF64 getIndexFromCoords
  rw [roundF64_exact _ h1, roundF64_exact _ h2]

theorem Op.run_dirty (s : State) (op : Op) (h : s.isBufferDirty = true) :
    (op.run s).isBufferDirty = true := by
  cases op <;>
    simp [Op.run, Canvasse.init, Canvasse.setBufferState, Canvasse.drawTileToBuffer,
      Canvasse.drawTileAt, Canvasse.drawTileToDisplay, Canvasse.drawRectToDisplay,
      Canvasse.clearRectFromDisplay, h]

theorem runOps_dirty (ops : List Op) (s : State) (h : s.isBufferDirty = true) :
    (runOps s ops).isBufferDirty = true := by
  induction ops generalizing s with
  | nil => exact h
  | cons op ops ih => exact ih (op.run s) (Op.run_dirty s op h)

/-- Whenever the flush returns, it has cleared `isBufferDirty` and kept the
backing store and `isDisplayDirty`. -/
theorem drawBufferToDisplay_fields (s s' : State) (h : drawBufferToDisplay s = some s') :
    s'.isBufferDirty = false ∧ s'.buffer = s.buffer ∧
      s'.isDisplayDirty = s.isDisplayDirty ∧ s'.width = s.width ∧ s'.height = s.height := by
  unfold drawBufferToDisplay at h
  split at h
  · cases h
  · simp only [Option.some.injEq] at h
    subst h
    split <;> exact ⟨rfl, rfl, rfl, rfl, rfl⟩

/-! ## The claims -/

/-- C1: color round trip. For channel values `r g b a` in `[0,255]` and an
index `i` in `[0, width*height)`, after
`setBufferState(i, a*2^24 + b*2^16 + g*2^8 + r)` the byte view of the backing
store holds exactly `r`, `g`, `b`, `a` at positions `4i`, `4i+1`, `4i+2`,
`4i+3`, in that order. -/
theorem C1_color_round_trip (s : State) (r g b a : Nat) (i : Int)
    (hr : r ≤ 255) (hg : g ≤ 255) (hb : b ≤ 255) (ha : a ≤ 255)
    (hlen : s.buffer.length = s.width * s.height * 4)
    (hi0 : 0 ≤ i) (hi : i < (s.width : Int) * (s.height : Int)) :
    let s' := setBufferState s i
      ((a : Int) * 2 ^ 24 + (b : Int) * 2 ^ 16 + (g : Int) * 2 ^ 8 + (r : Int))
    s'.buffer[4 * i.toNat]? = some r ∧ s'.buffer[4 * i.toNat + 1]? = some g ∧
      s'.buffer[4 * i.toNat + 2]? = some b ∧ s'.buffer[4 * i.toNat + 3]? = some a := by
  intro s'
  have hk : i.toNat < s.width * s.height := by
    have : ((i.toNat : Nat) : Int) < ((s.width * s.height : Nat) : Int) := by
      rw [Int.toNat_of_nonneg hi0]
      push_cast
      exact hi
    exact_mod_cast this
  have hi1 : i < ((s.buffer.length / 4 : Nat) : Int) := by
    rw [hlen, Nat.mul_div_cancel _ (by decide : 0 < 4)]
    push_cast
    exact hi
  have hl : s'.buffer.length = s.width * s.height * 4 := by
    simp [s', setBufferState, length_writeUint32, hlen]
  have hp : pixelAt s'.buffer i.toNat = ⟨r, g, b, a⟩ := by
    simp only [s', setBufferState]
    rw [pixelAt_writeUint32_self s.buffer i _ hi0 hi1, pixelOfColor_pack r g b a hr hg hb ha]
  have l0 : 4 * i.toNat < s'.buffer.length := by omega
  have l1 : 4 * i.toNat + 1 < s'.buffer.length := by omega
  have l2 : 4 * i.toNat + 2 < s'.buffer.length := by omega
  have l3 : 4 * i.toNat + 3 < s'.buffer.length := by omega
  simp only [pixelAt, List.getD_eq_getElem?_getD, Pixel.mk.injEq,
    List.getElem?_eq_getElem l0, List.getElem?_eq_getElem l1,
    List.getElem?_eq_getElem l2, List.getElem?_eq_getElem l3, Option.getD_some] at hp
  simp only [List.getElem?_eq_getElem l0, List.getElem?_eq_getElem l1,
    List.getElem?_eq_getElem l2, List.getElem?_eq_getElem l3, Option.some.injEq]
  exact hp

/-- C1 at a concrete input: on a fresh 2x2 grid, storing the packed word of
`(r, g, b, a) = (1, 2, 3, 255)` at index 3. -/
theorem C1_color_round_trip_witness :
    (setBufferState (fresh 2 2) 3 (255 * 2 ^ 24 + 3 * 2 ^ 16 + 2 * 2 ^ 8 + 1)).buffer
      = [0, 0, 0, 0, 0, 0, 0, 0, 0, 0, 0, 0, 1, 2, 3, 255]
    ∧ (let s' := setBufferState (fresh 2 2) 3
        (((255 : Nat) : Int) * 2 ^ 24 + ((3 : Nat) : Int) * 2 ^ 16
          + ((2 : Nat) : Int) * 2 ^ 8 + ((1 : Nat) : Int))
      s'.buffer[4 * (3 : Int).toNat]? = some 1 ∧ s'.buffer[4 * (3 : Int).toNat + 1]? = some 2 ∧
      s'.buffer[4 * (3 : Int).toNat + 2]? = some 3 ∧
      s'.buffer[4 * (3 : Int).toNat + 3]? = some 255) :=
  ⟨by decide, C1_color_round_trip (fresh 2 2) 1 2 3 255 3 (by decide) (by decide) (by decide)
    (by decide) (by decide) (by decide) (by decide)⟩

/-- C2: `getIndexFromCoords` is a bijection from the grid onto the index
range. The map `(x, y) -> y*width + x` restricted to `0 <= x < width`,
`0 <= y < height` is injective, and its image is exactly the integers `i` with
`0 <= i < width*height`. -/
theorem C2_index_bijection (s : State) :
    (∀ x y x' y' : Int, 0 ≤ x → x < s.width → 0 ≤ y → y < s.height →
      0 ≤ x' → x' < s.width → 0 ≤ y' → y' < s.height →
      getIndexFromCoords s x y = getIndexFromCoords s x' y' → x = x' ∧ y = y') ∧
    (∀ i : Int, (∃ x y : Int, 0 ≤ x ∧ x < s.width ∧ 0 ≤ y ∧ y < s.height ∧
      getIndexFromCoords s x y = i) ↔ (0 ≤ i ∧ i < (s.width : Int) * (s.height : Int))) := by
  constructor
  · intro x y x' y' hx0 hx hy0 hy hx0' hx' hy0' hy' he
    unfold getIndexFromCoords at he
    have hwpos : (0 : Int) < s.width := by omega
    have h1 : (y * (s.width : Int) + x) % (s.width : Int) = x := by
      rw [Int.add_comm, Int.add_mul_emod_self]
      exact Int.emod_eq_of_lt hx0 hx
    have h2 : (y' * (s.width : Int) + x') % (s.width : Int) = x' := by
      rw [Int.add_comm, Int.add_mul_emod_self]
      exact Int.emod_eq_of_lt hx0' hx'
    have hxx : x = x' := by rw [← h1, ← h2, he]
    subst hxx
    refine ⟨rfl, ?_⟩
    have h3 : y * (s.width : Int) = y' * (s.width : Int) := by omega
    exact Int.eq_of_mul_eq_mul_right (by omega) h3
  · intro i
    constructor
    · rintro ⟨x, y, hx0, hx, hy0, hy, rfl⟩
      unfold getIndexFromCoords
      constructor
      · have : 0 ≤ y * (s.width : Int) := Int.mul_nonneg hy0 (by omega)
        omega
      · have h1 : y + 1 ≤ (s.height : Int) := by omega
        have h2 : (y + 1) * (s.width : Int) ≤ (s.height : Int) * (s.width : Int) :=
          Int.mul_le_mul_of_nonneg_right h1 (by omega)
        have h3 : (y + 1) * (s.width : Int) = y * (s.width : Int) + s.width := by ring
        have h4 : (s.height : Int) * (s.width : Int) = (s.width : Int) * (s.height : Int) := by
          ring
        omega
    · rintro ⟨h0, h1⟩
      have hwpos : (0 : Int) < s.width := by
        by_contra hc
        have : (s.width : Int) = 0 := by omega
        rw [this] at h1
        omega
      refine ⟨i % s.width, i / s.width, Int.emod_nonneg _ (by omega),
        Int.emod_lt_of_pos _ hwpos, Int.ediv_nonneg h0 (by omega), ?_, ?_⟩
      · exact Int.ediv_lt_of_lt_mul hwpos (by rw [Int.mul_comm]; exact h1)
      · unfold getIndexFromCoords
        exact Int.ediv_add_emod' i s.width

/-- C3 fails as stated: on a fresh 1x1 grid, after a direct draw, the write of
the half-transparent color `0x80030201` and a flush, the backing store holds
`(1, 2, 3, 128)` at index 0 while the display shows `(2, 2, 4, 128)`. -/
theorem C3_flush_overwrites_direct_draws_counterexample :
    (drawBufferToDisplay
        (setBufferState (drawTileToDisplay (fresh 1 1) 0 0 red) 0 0x80030201)).map State.display
      = some [⟨2, 2, 4, 128⟩] ∧
    (drawBufferToDisplay
        (setBufferState (drawTileToDisplay (fresh 1 1) 0 0 red) 0 0x80030201)).map render
      = some [⟨1, 2, 3, 128⟩] := by
  refine ⟨by decide, by decide⟩

/-- C3, amended: flush overwrites direct draws. After any sequence of direct
draws followed by a buffer write and then `drawBufferToDisplay`, the flush
returns, and the display shows at every pixel `(x, y)` of the grid the
canvas's rendering of the four channel bytes the backing store holds at index
`y*width + x`: exactly those bytes where the alpha byte is 255, `(0,0,0,0)`
where it is 0; nothing of the direct draws remains: the display is the one
the same write and flush give without them. -/
theorem C3_flush_overwrites_direct_draws (s : State) (h : s.WF) (ds : List DirectDraw)
    (w : Write) :
    ∃ s', drawBufferToDisplay (w.run (runDirect s ds)) = some s' ∧
      (∀ x y : Nat, x < s.width → y < s.height →
        s'.display[y * s.width + x]?
          = some (canvasPixel (pixelAt s'.buffer (y * s.width + x))) ∧
        ((pixelAt s'.buffer (y * s.width + x)).a = 255 →
          s'.display[y * s.width + x]? = some (pixelAt s'.buffer (y * s.width + x))) ∧
        ((pixelAt s'.buffer (y * s.width + x)).a = 0 →
          s'.display[y * s.width + x]? = some ⟨0, 0, 0, 0⟩)) ∧
      s'.display.length = s.width * s.height ∧
      (drawBufferToDisplay (w.run s)).map State.display = some s'.display := by
  obtain ⟨fb, fw, fh, _⟩ := runDirect_frame ds s
  have ht : (w.run (runDirect s ds)).WF := Write.run_preserves_WF _ w (runDirect_WF ds s h)
  have hbuf : (w.run (runDirect s ds)).buffer = (w.run s).buffer := by
    rw [Write.run_eq, Write.run_eq, Write.index_congr s (runDirect s ds) w fw]
    simp [setBufferState, fb]
  have hwd : (w.run (runDirect s ds)).width = s.width := by
    rw [Write.run_eq]
    exact fw
  have hht : (w.run (runDirect s ds)).height = s.height := by
    rw [Write.run_eq]
    exact fh
  have hwd' : (w.run s).width = s.width := by rw [Write.run_eq]; rfl
  have hht' : (w.run s).height = s.height := by rw [Write.run_eq]; rfl
  refine ⟨_, drawBufferToDisplay_of_WF _ ht, ?_, ?_, ?_⟩
  · intro x y hx hy
    have hj : y * s.width + x < (w.run (runDirect s ds)).width *
        (w.run (runDirect s ds)).height := by
      rw [hwd, hht]
      exact cell_lt s.width s.height x y hx hy
    have hd := getElem?_blit _ _ hj
    refine ⟨hd, ?_, ?_⟩
    · intro ha
      exact hd.trans (congrArg some (canvasPixel_of_alpha_full _ ha))
    · intro ha
      exact hd.trans (congrArg some (canvasPixel_clear _ ha))
  · simp [length_blit, hwd, hht]
  · rw [drawBufferToDisplay_of_WF _ (Write.run_preserves_WF s w h)]
    simp [blit, hbuf, hwd, hht, hwd', hht']

/-- C3, amended, at a concrete input: a fresh 2x2 grid, painted red all over,
one tile painted black, one cell cleared, then a write of opaque green at
index 1 and a flush. -/
theorem C3_flush_overwrites_direct_draws_witness :
    (drawBufferToDisplay
        ((Write.set 1 0xFF00FF00).run
          (runDirect (fresh 2 2)
            [.rect 0 0 2 2 red, .tile 1 1 Style.black, .clear 0 0 1 1]))).map State.display
      = some [⟨0, 0, 0, 0⟩, ⟨0, 255, 0, 255⟩, ⟨0, 0, 0, 0⟩, ⟨0, 0, 0, 0⟩]
    ∧ (runDirect (fresh 2 2)
        [.rect 0 0 2 2 red, .tile 1 1 Style.black, .clear 0 0 1 1]).display
      = [⟨0, 0, 0, 0⟩, ⟨255, 0, 0, 255⟩, ⟨255, 0, 0, 255⟩, ⟨0, 0, 0, 255⟩]
    ∧ ∃ s', drawBufferToDisplay
        ((Write.set 1 0xFF00FF00).run
          (runDirect (fresh 2 2)
            [.rect 0 0 2 2 red, .tile 1 1 Style.black, .clear 0 0 1 1])) = some s' ∧
      (∀ x y : Nat, x < (fresh 2 2).width → y < (fresh 2 2).height →
        s'.display[y * (fresh 2 2).width + x]?
          = some (canvasPixel (pixelAt s'.buffer (y * (fresh 2 2).width + x))) ∧
        ((pixelAt s'.buffer (y * (fresh 2 2).width + x)).a = 255 →
          s'.display[y * (fresh 2 2).width + x]?
            = some (pixelAt s'.buffer (y * (fresh 2 2).width + x))) ∧
        ((pixelAt s'.buffer (y * (fresh 2 2).width + x)).a = 0 →
          s'.display[y * (fresh 2 2).width + x]? = some ⟨0, 0, 0, 0⟩)) ∧
      s'.display.length = (fresh 2 2).width * (fresh 2 2).height ∧
      (drawBufferToDisplay ((Write.set 1 0xFF00FF00).run (fresh 2 2))).map State.display
        = some s'.display :=
  ⟨by decide, by decide,
    C3_flush_overwrites_direct_draws (fresh 2 2) (init_WF _ 2 2 false (by decide) (by decide))
      [.rect 0 0 2 2 red, .tile 1 1 Style.black, .clear 0 0 1 1] (Write.set 1 0xFF00FF00)⟩

/-- C4 fails as stated: on a fresh 1x1 grid whose pixel was painted red by
`drawRectToDisplay`, `isBufferDirty` is false, yet `drawBufferToDisplay`
replaces the red display pixel by the buffer's transparent one. -/
theorem C4_flush_clean_buffer_counterexample :
    paintedClean.isBufferDirty = false ∧
    paintedClean.display = [⟨255, 0, 0, 255⟩] ∧
    (drawBufferToDisplay paintedClean).map State.display = some [⟨0, 0, 0, 0⟩] ∧
    ¬ (∀ s s' : State, s.isBufferDirty = false → drawBufferToDisplay s = some s' →
        s'.display = s.display) := by
  refine ⟨by decide, by decide, by decide, ?_⟩
  intro hall
  have hwf : paintedClean.WF :=
    drawRectToDisplay_WF _ 0 0 1 1 red (init_WF _ 1 1 false (by decide) (by decide))
  have h := hall paintedClean _ (by decide) (drawBufferToDisplay_of_WF paintedClean hwf)
  revert h
  decide

/-- C4, amended: on a clean buffer (`isBufferDirty` false) `tick` does
nothing, while `drawBufferToDisplay` still redraws: it returns, leaves the
backing store and both dirty flags as they were, and sets the display to the
canvas's rendering of the backing store's contents, so the display is
unchanged whenever it already showed that. -/
theorem C4_flush_clean_buffer (s : State) (h : s.WF) (hc : s.isBufferDirty = false) :
    tick s = some s ∧
    ∃ s', drawBufferToDisplay s = some s' ∧ s'.buffer = s.buffer ∧
      s'.isBufferDirty = s.isBufferDirty ∧ s'.isDisplayDirty = s.isDisplayDirty ∧
      s'.display = blit s ∧ (s.display = blit s → s'.display = s.display) := by
  refine ⟨by simp [tick, hc], _, drawBufferToDisplay_of_WF s h, rfl, ?_, rfl, rfl, ?_⟩
  · simp [hc]
  · intro he
    exact he.symm

/-- C4, amended, at a concrete input: a fresh 2x2 grid, whose display shows
the all-zero backing store. -/
theorem C4_flush_clean_buffer_witness :
    (fresh 2 2).isBufferDirty = false ∧ (fresh 2 2).display = blit (fresh 2 2) ∧
    (tick (fresh 2 2) = some (fresh 2 2) ∧
    ∃ s', drawBufferToDisplay (fresh 2 2) = some s' ∧ s'.buffer = (fresh 2 2).buffer ∧
      s'.isBufferDirty = (fresh 2 2).isBufferDirty ∧
      s'.isDisplayDirty = (fresh 2 2).isDisplayDirty ∧
      s'.display = blit (fresh 2 2) ∧
      ((fresh 2 2).display = blit (fresh 2 2) → s'.display = (fresh 2 2).display)) :=
  ⟨by decide, by decide,
    C4_flush_clean_buffer (fresh 2 2) (init_WF _ 2 2 false (by decide) (by decide)) (by decide)⟩

/-- C5: the dirty-flag protocol. After any buffer write (`setBufferState`,
`drawTileToBuffer`, `drawTileAt`) `isBufferDirty` is true; once true it stays
true under every sequence of calls other than a flush (writes, direct draws,
even `init`), so no such call changes it from true to false; whenever
`drawBufferToDisplay` returns it has left `isBufferDirty` false, and on a
well-formed state it does return, directly or through a `tick` taken while the
flag was true. -/
theorem C5_dirty_flag_protocol (s : State) :
    (∀ i color : Int, (setBufferState s i color).isBufferDirty = true) ∧
    (∀ x y color : Int, (drawTileToBuffer s x y color).isBufferDirty = true) ∧
    (∀ x y color : Int, (drawTileAt s x y color).isBufferDirty = true) ∧
    (s.isBufferDirty = true → ∀ op : Op, (op.run s).isBufferDirty = true) ∧
    (s.isBufferDirty = true → ∀ ops : List Op, (runOps s ops).isBufferDirty = true) ∧
    (∀ s' : State, drawBufferToDisplay s = some s' → s'.isBufferDirty = false) ∧
    (s.WF → ∃ s', drawBufferToDisplay s = some s' ∧ s'.isBufferDirty = false) ∧
    (s.WF → s.isBufferDirty = true → ∃ s', tick s = some s' ∧ s'.isBufferDirty = false) := by
  refine ⟨fun _ _ => rfl, fun _ _ _ => rfl, fun _ _ _ => rfl,
    fun h op => Op.run_dirty s op h, fun h ops => runOps_dirty ops s h,
    fun s' h => (drawBufferToDisplay_fields s s' h).1, ?_, ?_⟩
  · intro h
    exact ⟨_, drawBufferToDisplay_of_WF s h, rfl⟩
  · intro h hd
    have ht : tick s = drawBufferToDisplay s := by simp [tick, hd]
    rw [ht]
    exact ⟨_, drawBufferToDisplay_of_WF s h, rfl⟩

/-- C5 at a concrete input: a fresh 2x2 grid after one write; the flag is
true, survives a direct draw and a further write, and a tick then returns with
the flag false. -/
theorem C5_dirty_flag_protocol_witness :
    (setBufferState (fresh 2 2) 0 1).WF ∧
    (setBufferState (fresh 2 2) 0 1).isBufferDirty = true ∧
    (runOps (setBufferState (fresh 2 2) 0 1)
      [.drawRectToDisplay 0 0 2 2 red, .drawTileToBuffer 1 1 7]).isBufferDirty = true ∧
    (∃ s', tick (setBufferState (fresh 2 2) 0 1) = some s' ∧ s'.isBufferDirty = false) :=
  ⟨setBufferState_WF _ 0 1 (init_WF _ 2 2 false (by decide) (by decide)),
    (C5_dirty_flag_protocol (fresh 2 2)).1 0 1,
    (C5_dirty_flag_protocol (setBufferState (fresh 2 2) 0 1)).2.2.2.2.1 rfl _,
    (C5_dirty_flag_protocol (setBufferState (fresh 2 2) 0 1)).2.2.2.2.2.2.2
      (setBufferState_WF _ 0 1 (init_WF _ 2 2 false (by decide) (by decide))) rfl⟩

/-- C6 fails as stated: on a fresh 1x1 grid, after the write of the
half-transparent color `0x80030201` and a tick, the display shows
`(2, 2, 4, 128)` where the backing store holds `(1, 2, 3, 128)`: the display
does not equal the backing store. -/
theorem C6_tick_flushes_when_dirty_counterexample :
    (tick (runWrites (fresh 1 1) [.set 0 0x80030201])).map State.display
      = some [⟨2, 2, 4, 128⟩] ∧
    (tick (runWrites (fresh 1 1) [.set 0 0x80030201])).map render
      = some [⟨1, 2, 3, 128⟩] := by
  refine ⟨by decide, by decide⟩

/-- C6, amended: `tick` flushes exactly when the buffer is dirty. If
`isBufferDirty` is false, `tick` leaves the whole state unchanged; if it is
true, `tick` is `drawBufferToDisplay`. Consequently, on a well-formed state,
any non-empty sequence of writes followed by a tick results in one blit of the
written state, after which the display shows the canvas's rendering of the
backing store (the store's own bytes at every pixel whose alpha byte is 255),
`isBufferDirty` is false, and a further tick changes nothing. -/
theorem C6_tick_flushes_when_dirty (s : State) :
    (s.isBufferDirty = false → tick s = some s) ∧
    (s.isBufferDirty = true → tick s = drawBufferToDisplay s) ∧
    (s.WF → ∀ (w : Write) (ws : List Write),
      ∃ s', tick (runWrites s (w :: ws)) = some s' ∧
        drawBufferToDisplay (runWrites s (w :: ws)) = some s' ∧
        s'.buffer = (runWrites s (w :: ws)).buffer ∧
        s'.display = blit s' ∧
        (∀ j : Nat, j < s.width * s.height → (pixelAt s'.buffer j).a = 255 →
          s'.display[j]? = some (pixelAt s'.buffer j)) ∧
        s'.isBufferDirty = false ∧ tick s' = some s') := by
  refine ⟨fun h => by simp [tick, h], fun h => by simp [tick, h], ?_⟩
  intro h w ws
  have hd : (runWrites s (w :: ws)).isBufferDirty = true :=
    runWrites_dirty (w :: ws) s (Or.inl (by simp))
  obtain ⟨fw, fh, _, _⟩ := runWrites_frame (w :: ws) s
  have hf := drawBufferToDisplay_of_WF _ (runWrites_WF (w :: ws) s h)
  refine ⟨_, ?_, hf, rfl, rfl, ?_, rfl, ?_⟩
  · simp only [tick, hd, if_true]
    exact hf
  · intro j hj ha
    have hj' : j < (runWrites s (w :: ws)).width * (runWrites s (w :: ws)).height := by
      rw [fw, fh]
      exact hj
    exact (getElem?_blit _ j hj').trans (congrArg some (canvasPixel_of_alpha_full _ ha))
  · simp [tick]

/-- C6, amended, at a concrete input: three writes on a fresh 2x2 grid, two
of them at the same pixel, then a tick. -/
theorem C6_tick_flushes_when_dirty_witness :
    (fresh 2 2).WF ∧
    (tick (runWrites (fresh 2 2)
      [.set 0 0xFF0000FF, .tile 1 1 0xFFFFFFFF, .set 0 0xFF00FF00])).map State.display
      = some [⟨0, 255, 0, 255⟩, ⟨0, 0, 0, 0⟩, ⟨0, 0, 0, 0⟩, ⟨255, 255, 255, 255⟩] ∧
    (∃ s', tick (runWrites (fresh 2 2)
        [.set 0 0xFF0000FF, .tile 1 1 0xFFFFFFFF, .set 0 0xFF00FF00]) = some s' ∧
      drawBufferToDisplay (runWrites (fresh 2 2)
        [.set 0 0xFF0000FF, .tile 1 1 0xFFFFFFFF, .set 0 0xFF00FF00]) = some s' ∧
      s'.buffer = (runWrites (fresh 2 2)
        [.set 0 0xFF0000FF, .tile 1 1 0xFFFFFFFF, .set 0 0xFF00FF00]).buffer ∧
      s'.display = blit s' ∧
      (∀ j : Nat, j < (fresh 2 2).width * (fresh 2 2).height →
        (pixelAt s'.buffer j).a = 255 → s'.display[j]? = some (pixelAt s'.buffer j)) ∧
      s'.isBufferDirty = false ∧ tick s' = some s') :=
  ⟨init_WF _ 2 2 false (by decide) (by decide), by decide,
    (C6_tick_flushes_when_dirty (fresh 2 2)).2.2
      (init_WF _ 2 2 false (by decide) (by decide)) (.set 0 0xFF0000FF)
      [.tile 1 1 0xFFFFFFFF, .set 0 0xFF00FF00]⟩

/-- C7 fails as stated: on a fresh 1x1 grid, after the in-range write of the
half-transparent color `0x80030201`, whose channels are `(1, 2, 3, 128)`, and
a flush, the display shows `(2, 2, 4, 128)`. -/
theorem C7_last_write_wins_counterexample :
    (Write.set 0 0x80030201).inRange (fresh 1 1) = true ∧
    pixelOfColor 0x80030201 = ⟨1, 2, 3, 128⟩ ∧
    (drawBufferToDisplay (runWrites (fresh 1 1) [.set 0 0x80030201])).map State.display
      = some [⟨2, 2, 4, 128⟩] := by
  refine ⟨by decide, by decide, by decide⟩

/-- C7, amended: last write wins per pixel. After any finite sequence of
in-range buffer writes (`setBufferState` / `drawTileToBuffer`) followed by
`drawBufferToDisplay`, the flush returns and the display at each pixel index
`j` shows the canvas's rendering of the color of the last write of the
sequence whose index is `j`, or of the backing store's content from before the
sequence where no write targeted `j`: exactly that color or content when its
alpha byte is 255. -/
theorem C7_last_write_wins (s : State) (h : s.WF) (ws : List Write)
    (hr : ∀ w ∈ ws, w.inRange s = true) :
    ∃ s', drawBufferToDisplay (runWrites s ws) = some s' ∧
      ∀ j : Nat, j < s.width * s.height →
        s'.display[j]? = some (canvasPixel (lastWritten s ws j)) ∧
        ((lastWritten s ws j).a = 255 → s'.display[j]? = some (lastWritten s ws j)) := by
  obtain ⟨fw, fh, _, _⟩ := runWrites_frame ws s
  refine ⟨_, drawBufferToDisplay_of_WF _ (runWrites_WF ws s h), ?_⟩
  intro j hj
  have hj' : j < (runWrites s ws).width * (runWrites s ws).height := by
    rw [fw, fh]
    exact hj
  have hd : (blit (runWrites s ws))[j]? = some (canvasPixel (lastWritten s ws j)) := by
    rw [getElem?_blit _ j hj', pixelAt_runWrites_lastWritten s h ws hr j]
  refine ⟨hd, ?_⟩
  intro ha
  exact hd.trans (congrArg some (canvasPixel_of_alpha_full _ ha))

/-- C7, amended, at a concrete input: on a 2x2 grid that already holds
opaque white at index 3, index 0 is written twice and index 2 once; the
display shows the second color at 0, the old buffer content at 1 and 3. -/
theorem C7_last_write_wins_witness :
    (drawBufferToDisplay (runWrites (setBufferState (fresh 2 2) 3 0xFFFFFFFF)
      [.set 0 0xFF0000FF, .tile 0 1 0xFFFF0000, .set 0 0xFF00FF00])).map State.display
      = some [⟨0, 255, 0, 255⟩, ⟨0, 0, 0, 0⟩, ⟨0, 0, 255, 255⟩, ⟨255, 255, 255, 255⟩] ∧
    lastWritten (setBufferState (fresh 2 2) 3 0xFFFFFFFF)
      [.set 0 0xFF0000FF, .tile 0 1 0xFFFF0000, .set 0 0xFF00FF00] 0 = ⟨0, 255, 0, 255⟩ ∧
    (∃ s', drawBufferToDisplay (runWrites (setBufferState (fresh 2 2) 3 0xFFFFFFFF)
        [.set 0 0xFF0000FF, .tile 0 1 0xFFFF0000, .set 0 0xFF00FF00]) = some s' ∧
      ∀ j : Nat, j < (setBufferState (fresh 2 2) 3 0xFFFFFFFF).width *
          (setBufferState (fresh 2 2) 3 0xFFFFFFFF).height →
        s'.display[j]? = some (canvasPixel (lastWritten (setBufferState (fresh 2 2) 3 0xFFFFFFFF)
          [.set 0 0xFF0000FF, .tile 0 1 0xFFFF0000, .set 0 0xFF00FF00] j)) ∧
        ((lastWritten (setBufferState (fresh 2 2) 3 0xFFFFFFFF)
          [.set 0 0xFF0000FF, .tile 0 1 0xFFFF0000, .set 0 0xFF00FF00] j).a = 255 →
          s'.display[j]? = some (lastWritten (setBufferState (fresh 2 2) 3 0xFFFFFFFF)
            [.set 0 0xFF0000FF, .tile 0 1 0xFFFF0000, .set 0 0xFF00FF00] j))) :=
  ⟨by decide, by decide,
    C7_last_write_wins (setBufferState (fresh 2 2) 3 0xFFFFFFFF)
      (setBufferState_WF _ 3 _ (init_WF _ 2 2 false (by decide) (by decide)))
      [.set 0 0xFF0000FF, .tile 0 1 0xFFFF0000, .set 0 0xFF00FF00]
      (by decide)⟩

/-- C8: a buffer write touches only its own pixel and the buffer dirty flag.
`setBufferState(i, color)` leaves every byte of the backing store outside
`4i .. 4i+3` as it was, keeps the store's length, sets `isBufferDirty`, and
leaves the display, `isDisplayDirty`, `width`, `height`, the fill style and
the mirror unchanged; `drawTileToBuffer(x, y, color)` is that write at
`i = y*width + x`. -/
theorem C8_write_touches_own_pixel (s : State) (i color : Int) :
    (∀ j : Nat, (j < 4 * i.toNat ∨ 4 * i.toNat + 3 < j) →
      (setBufferState s i color).buffer[j]? = s.buffer[j]?) ∧
    (setBufferState s i color).buffer.length = s.buffer.length ∧
    (setBufferState s i color).isBufferDirty = true ∧
    (setBufferState s i color).display = s.display ∧
    (setBufferState s i color).isDisplayDirty = s.isDisplayDirty ∧
    (setBufferState s i color).width = s.width ∧
    (setBufferState s i color).height = s.height ∧
    (setBufferState s i color).fillStyle = s.fillStyle ∧
    (setBufferState s i color).img = s.img ∧
    (∀ x y : Int, i = y * (s.width : Int) + x →
      drawTileToBuffer s x y color = setBufferState s i color) := by
  refine ⟨?_, length_writeUint32 s.buffer i color, rfl, rfl, rfl, rfl, rfl, rfl, rfl, ?_⟩
  · intro j hj
    exact getElem?_writeUint32_of_ne s.buffer i color j (by omega)
  · intro x y hi
    simp [drawTileToBuffer, getIndexFromCoords, hi]

/-- C9: direct draws never touch the backing store. Each of
`drawTileToDisplay`, `drawRectToDisplay` and `clearRectFromDisplay`, for all
arguments, leaves the backing store and `isBufferDirty` unchanged and sets
`isDisplayDirty` to true. -/
theorem C9_direct_draws_keep_buffer (s : State) :
    (∀ (x y : Int) (color : Style),
      (drawTileToDisplay s x y color).buffer = s.buffer ∧
      (drawTileToDisplay s x y color).isBufferDirty = s.isBufferDirty ∧
      (drawTileToDisplay s x y color).isDisplayDirty = true) ∧
    (∀ (x y width height : Int) (color : Style),
      (drawRectToDisplay s x y width height color).buffer = s.buffer ∧
      (drawRectToDisplay s x y width height color).isBufferDirty = s.isBufferDirty ∧
      (drawRectToDisplay s x y width height color).isDisplayDirty = true) ∧
    (∀ x y width height : Int,
      (clearRectFromDisplay s x y width height).buffer = s.buffer ∧
      (clearRectFromDisplay s x y width height).isBufferDirty = s.isBufferDirty ∧
      (clearRectFromDisplay s x y width height).isDisplayDirty = true) :=
  ⟨fun _ _ _ => ⟨rfl, rfl, rfl⟩, fun _ _ _ _ _ => ⟨rfl, rfl, rfl⟩,
    fun _ _ _ _ => ⟨rfl, rfl, rfl⟩⟩

/-- C10 does not hold of the code: `drawTileAt` only writes the buffer. On a
fresh 1x1 grid, after `drawTileAt(0, 0, 0xFF0000FF)` the backing store holds
opaque red at index 0 and `isBufferDirty` is set, but the display pixel
`(0, 0)` is still transparent; it shows the color only after a later flush. -/
theorem C10_drawTileAt_display_not_updated :
    pixelAt (drawTileAt (fresh 1 1) 0 0 0xFF0000FF).buffer 0 = ⟨255, 0, 0, 255⟩ ∧
    pixelOfColor 0xFF0000FF = ⟨255, 0, 0, 255⟩ ∧
    (drawTileAt (fresh 1 1) 0 0 0xFF0000FF).display = [⟨0, 0, 0, 0⟩] ∧
    (drawTileAt (fresh 1 1) 0 0 0xFF0000FF).display = (fresh 1 1).display ∧
    (drawTileAt (fresh 1 1) 0 0 0xFF0000FF).isBufferDirty = true ∧
    (drawBufferToDisplay (drawTileAt (fresh 1 1) 0 0 0xFF0000FF)).map State.display
      = some [⟨255, 0, 0, 255⟩] := by
  refine ⟨by decide, by decide, by decide, by decide, by decide, by decide⟩

/-! ## Further lemmas -/

/-- An all-zero byte array reads as transparent at every pixel index. -/
theorem pixelAt_replicate_zero (n k : Nat) :
    pixelAt (List.replicate n 0) k = Pixel.transparent := by
  have hz : ∀ m : Nat, (List.replicate n 0).getD m 0 = 0 := by
    intro m
    rw [List.getD_eq_getElem?_getD, List.getElem?_replicate]
    split <;> rfl
  simp only [pixelAt, hz, Pixel.transparent]

/-- Flushing a state that a flush has just produced gives that state back. -/
theorem drawBufferToDisplay_fixed (s : State) (h : s.WF) :
    ∃ s1, drawBufferToDisplay s = some s1 ∧ drawBufferToDisplay s1 = some s1 := by
  have h1 := drawBufferToDisplay_of_WF s h
  have hwf1 := drawBufferToDisplay_WF s _ h h1
  refine ⟨_, h1, ?_⟩
  rw [drawBufferToDisplay_of_WF _ hwf1]
  cases hi : s.img <;> simp [blit, hi]

/-- Every cell of the grid lies in the rectangle `(0, 0, width, height)`. -/
theorem inRect_full (w h x y : Nat) (hx : x < w) (hy : y < h) :
    inRect 0 0 (w : Int) (h : Int) (x : Int) (y : Int) = true := by
  simp only [inRect, decide_eq_true_eq]
  omega

/-- A fill of the whole of a cleared bitmap leaves, at every cell, what the
style paints over a transparent pixel. -/
theorem fillRect_full_cleared (w h : Nat) (style : Style) (j : Nat) (hj : j < w * h) :
    (fillRect w style (List.replicate (w * h) Pixel.transparent) 0 0 w h)[j]?
      = some (style.paint ((j % w : Nat) : Int) ((j / w : Nat) : Int) Pixel.transparent) := by
  have hw : 0 < w := by
    rcases Nat.eq_zero_or_pos w with h0 | h0
    · rw [h0, Nat.zero_mul] at hj
      exact absurd hj (Nat.not_lt_zero _)
    · exact h0
  have hx : j % w < w := Nat.mod_lt _ hw
  have hy : j / w < h := Nat.div_lt_of_lt_mul hj
  have hin := inRect_full w h (j % w) (j / w) hx hy
  unfold fillRect
  rw [getElem?_mapPixels, List.getElem?_replicate, if_pos hj, Option.map_some', Nat.zero_add]
  simp only [hin, if_true]

/-- ToUint32 does not see multiples of `2^32`. -/
theorem toUint32_add_mul (c k : Int) : toUint32 (c + k * 2 ^ 32) = toUint32 c := by
  unfold toUint32
  rw [Int.add_mul_emod_self]

/-- The pixel a color decodes to determines the word read back. -/
theorem readUint32_of_pixelAt (buf : List Nat) (k : Nat) (color : Int)
    (h : pixelAt buf k = pixelOfColor color) : readUint32 buf k = toUint32 color := by
  have hv : toUint32 color < 2 ^ 32 := by
    unfold toUint32
    omega
  simp only [pixelAt, pixelOfColor, Pixel.mk.injEq] at h
  obtain ⟨h0, h1, h2, h3⟩ := h
  unfold readUint32
  rw [h0, h1, h2, h3]
  omega

theorem Op.run_Shaped (s : State) (o : Op) (h : s.Shaped) : (o.run s).Shaped := by
  obtain ⟨hb, hd⟩ := h
  cases o with
  | init width height safari => exact ⟨by simp [Op.run, Canvasse.init], by simp [Op.run, Canvasse.init]⟩
  | setBufferState i color =>
    exact ⟨by simpa [Op.run, Canvasse.setBufferState, length_writeUint32] using hb, hd⟩
  | drawTileToBuffer x y color =>
    exact ⟨by simpa [Op.run, Canvasse.drawTileToBuffer, Canvasse.setBufferState,
      length_writeUint32] using hb, hd⟩
  | drawTileAt x y color =>
    exact ⟨by simpa [Op.run, Canvasse.drawTileAt, Canvasse.drawTileToBuffer,
      Canvasse.setBufferState, length_writeUint32] using hb, hd⟩
  | drawTileToDisplay x y color =>
    exact ⟨hb, by simpa [Op.run, Canvasse.drawTileToDisplay, fillRect, length_mapPixels]
      using hd⟩
  | drawRectToDisplay x y width height color =>
    exact ⟨hb, by simpa [Op.run, Canvasse.drawRectToDisplay, fillRect, length_mapPixels]
      using hd⟩
  | clearRectFromDisplay x y width height =>
    exact ⟨hb, by simpa [Op.run, Canvasse.clearRectFromDisplay, clearRect, length_mapPixels]
      using hd⟩

/-- Whenever the flush returns, the bitmap has kept its size. -/
theorem drawBufferToDisplay_display_length (s s' : State)
    (h : drawBufferToDisplay s = some s') : s'.display.length = s.display.length := by
  unfold drawBufferToDisplay at h
  split at h
  · cases h
  · simp only [Option.some.injEq] at h
    subst h
    split <;> simp [putImageData, length_mapPixels]

theorem Call.run_fields (s s' : State) (c : Call) (h : c.run s = some s') :
    (s.isDisplayDirty = true → s'.isDisplayDirty = true) ∧ (s.Shaped → s'.Shaped) := by
  cases c with
  | op o =>
    simp only [Call.run, Option.some.injEq] at h
    subst h
    refine ⟨?_, Op.run_Shaped s o⟩
    intro hd
    cases o <;>
      simp [Op.run, Canvasse.init, Canvasse.setBufferState, Canvasse.drawTileToBuffer,
        Canvasse.drawTileAt, Canvasse.drawTileToDisplay, Canvasse.drawRectToDisplay,
        Canvasse.clearRectFromDisplay, hd]
  | tick =>
    simp only [Call.run, Canvasse.tick] at h
    split at h
    · obtain ⟨_, hb, hd, hw, hh⟩ := drawBufferToDisplay_fields s s' h
      have hl := drawBufferToDisplay_display_length s s' h
      exact ⟨fun g => hd.trans g, fun g => ⟨by rw [hb, hw, hh]; exact g.1,
        by rw [hl, hw, hh]; exact g.2⟩⟩
    · simp only [Option.some.injEq] at h
      subst h
      exact ⟨id, id⟩
  | drawBufferToDisplay =>
    simp only [Call.run] at h
    obtain ⟨_, hb, hd, hw, hh⟩ := drawBufferToDisplay_fields s s' h
    have hl := drawBufferToDisplay_display_length s s' h
    exact ⟨fun g => hd.trans g, fun g => ⟨by rw [hb, hw, hh]; exact g.1,
      by rw [hl, hw, hh]; exact g.2⟩⟩

theorem Call.step_fields (s : State) (c : Call) :
    (s.isDisplayDirty = true → (c.step s).isDisplayDirty = true) ∧
      (s.Shaped → (c.step s).Shaped) := by
  unfold Call.step
  cases hr : c.run s with
  | none => exact ⟨id, id⟩
  | some s' => exact Call.run_fields s s' c hr

theorem stepObject_fields (o : Option State) (c : Call) :
    (objectDisplayDirty o = true → objectDisplayDirty (stepObject o c) = true) ∧
      (objectShaped o → objectShaped (stepObject o c)) := by
  cases o with
  | none =>
    refine ⟨fun h => by simp [objectDisplayDirty] at h, fun _ => ?_⟩
    cases c with
    | op o =>
      cases o <;> first
        | exact trivial
        | exact ⟨by simp [stepObject, init], by simp [stepObject, init]⟩
    | tick => exact trivial
    | drawBufferToDisplay => exact trivial
  | some s => exact Call.step_fields s c

theorem runCalls_fields (cs : List Call) (o : Option State) :
    (objectDisplayDirty o = true → objectDisplayDirty (runCalls o cs) = true) ∧
      (objectShaped o → objectShaped (runCalls o cs)) := by
  induction cs generalizing o with
  | nil => exact ⟨id, id⟩
  | cons c cs ih =>
    obtain ⟨h1, h2⟩ := stepObject_fields o c
    obtain ⟨g1, g2⟩ := ih (stepObject o c)
    exact ⟨fun h => g1 (h1 h), fun h => g2 (h2 h)⟩

theorem runCalls_append (o : Option State) (cs cs' : List Call) :
    runCalls o (cs ++ cs') = runCalls (runCalls o cs) cs' := by
  simp [runCalls, List.foldl_append]

/-! ## The claims, continued -/

/-- C11: flush is idempotent. On a well-formed state `drawBufferToDisplay`
returns, and calling it again on the result, with no write in between, returns
that same state: the same display (the canvas's rendering of the store), the
same backing store (that of the start), the same mirror and `isBufferDirty`
false, as after one call. -/
theorem C11_flush_idempotent (s : State) (h : s.WF) :
    ∃ s1, drawBufferToDisplay s = some s1 ∧ drawBufferToDisplay s1 = some s1 ∧
      s1.isBufferDirty = false ∧ s1.buffer = s.buffer ∧ s1.display = blit s := by
  obtain ⟨s1, h1, h2⟩ := drawBufferToDisplay_fixed s h
  have e := h1
  rw [drawBufferToDisplay_of_WF s h] at e
  simp only [Option.some.injEq] at e
  subst e
  exact ⟨_, h1, h2, rfl, rfl, rfl⟩

/-- C11 at a concrete input: a 2x2 grid with the mirror, one half-transparent
pixel written and the display painted over directly; two flushes show what
one shows. -/
theorem C11_flush_idempotent_witness :
    ((drawBufferToDisplay
        (drawRectToDisplay (setBufferState (freshSafari 2 2) 2 0x80030201) 0 0 2 1 red)).bind
      drawBufferToDisplay).map State.display
      = some [⟨0, 0, 0, 0⟩, ⟨0, 0, 0, 0⟩, ⟨2, 2, 4, 128⟩, ⟨0, 0, 0, 0⟩] ∧
    (drawBufferToDisplay
        (drawRectToDisplay (setBufferState (freshSafari 2 2) 2 0x80030201) 0 0 2 1
          red)).map State.display
      = some [⟨0, 0, 0, 0⟩, ⟨0, 0, 0, 0⟩, ⟨2, 2, 4, 128⟩, ⟨0, 0, 0, 0⟩] ∧
    (∃ s1, drawBufferToDisplay
        (drawRectToDisplay (setBufferState (freshSafari 2 2) 2 0x80030201) 0 0 2 1 red)
          = some s1 ∧
      drawBufferToDisplay s1 = some s1 ∧ s1.isBufferDirty = false ∧
      s1.buffer = (drawRectToDisplay (setBufferState (freshSafari 2 2) 2 0x80030201)
        0 0 2 1 red).buffer ∧
      s1.display = blit (drawRectToDisplay (setBufferState (freshSafari 2 2) 2 0x80030201)
        0 0 2 1 red)) :=
  ⟨by decide, by decide,
    C11_flush_idempotent _
      (drawRectToDisplay_WF _ 0 0 2 1 red
        (setBufferState_WF _ 2 _ (init_WF _ 2 2 true (by decide) (by decide))))⟩

/-- C12 fails as stated: on a fresh 1x1 grid, after the in-range write of
`0x013264C8`, whose channels are `(200, 100, 50, 1)`, and a flush, the display
shows `(255, 0, 0, 1)`, not the written color. -/
theorem C12_fresh_grid_transparent_counterexample :
    (Write.set 0 0x013264C8).inRange (fresh 1 1) = true ∧
    pixelOfColor 0x013264C8 = ⟨200, 100, 50, 1⟩ ∧
    (drawBufferToDisplay (runWrites (fresh 1 1) [.set 0 0x013264C8])).map State.display
      = some [⟨255, 0, 0, 1⟩] := by
  refine ⟨by decide, by decide, by decide⟩

/-- C12, amended: a freshly initialised grid is all transparent and only
written pixels change. For positive `width` and `height`, right after `init`
every byte of the backing store is 0; after any sequence of in-range writes
followed by `drawBufferToDisplay` the flush returns and the display shows, at
each pixel index, the canvas's rendering of the color last written there
(exactly that color when its alpha byte is 255), and `(0,0,0,0)` where nothing
was written. -/
theorem C12_fresh_grid_transparent (s0 : State) (width height : Nat) (safari : Bool)
    (hw : 0 < width) (hh : 0 < height) :
    (init s0 width height safari).buffer.length = width * height * 4 ∧
    (∀ j : Nat, j < width * height * 4 →
      (init s0 width height safari).buffer[j]? = some 0) ∧
    ∀ ws : List Write, (∀ w ∈ ws, w.inRange (init s0 width height safari) = true) →
      ∃ s', drawBufferToDisplay (runWrites (init s0 width height safari) ws) = some s' ∧
        ∀ j : Nat, j < width * height →
          s'.display[j]? = some
            (match lastWriteAt (init s0 width height safari) ws j with
            | some w => canvasPixel (pixelOfColor w.color)
            | none => ⟨0, 0, 0, 0⟩) ∧
          (∀ w : Write, lastWriteAt (init s0 width height safari) ws j = some w →
            (pixelOfColor w.color).a = 255 →
            s'.display[j]? = some (pixelOfColor w.color)) := by
  have hwf := init_WF s0 width height safari hw hh
  refine ⟨by simp [init], ?_, ?_⟩
  · intro j hj
    simp [init, List.getElem?_replicate, hj]
  · intro ws hr
    obtain ⟨fw, fh, _, _⟩ := runWrites_frame ws (init s0 width height safari)
    refine ⟨_, drawBufferToDisplay_of_WF _ (runWrites_WF ws _ hwf), ?_⟩
    intro j hj
    have hj' : j < (runWrites (init s0 width height safari) ws).width *
        (runWrites (init s0 width height safari) ws).height := by
      rw [fw, fh]
      exact hj
    have hd : (blit (runWrites (init s0 width height safari) ws))[j]? = some
        (canvasPixel (match lastWriteAt (init s0 width height safari) ws j with
          | some w => pixelOfColor w.color
          | none => pixelAt (init s0 width height safari).buffer j)) := by
      rw [getElem?_blit _ j hj', pixelAt_runWrites _ hwf ws hr j]
    cases hl : lastWriteAt (init s0 width height safari) ws j with
    | some w =>
      rw [hl] at hd
      refine ⟨hd, ?_⟩
      intro w' hw' ha
      cases hw'
      exact hd.trans (congrArg some (canvasPixel_of_alpha_full _ ha))
    | none =>
      rw [hl] at hd
      refine ⟨?_, ?_⟩
      · refine hd.trans (congrArg some ?_)
        show canvasPixel (pixelAt (List.replicate (width * height * 4) 0) j) = _
        rw [pixelAt_replicate_zero]
        rfl
      · intro w' hw'
        cases hw'

/-- C12, amended, at the 2x2 scenario: opaque black written at `(0,0)`,
opaque white at `(1,1)`, then a flush; `(1,0)` and `(0,1)` stay transparent. -/
theorem C12_fresh_grid_transparent_witness :
    (drawBufferToDisplay
        (drawTileToBuffer (drawTileToBuffer (fresh 2 2) 0 0 0xFF000000) 1 1
          0xFFFFFFFF)).map State.display
      = some [⟨0, 0, 0, 255⟩, ⟨0, 0, 0, 0⟩, ⟨0, 0, 0, 0⟩, ⟨255, 255, 255, 255⟩] ∧
    ((init initial 2 2 false).buffer.length = 2 * 2 * 4 ∧
    (∀ j : Nat, j < 2 * 2 * 4 → (init initial 2 2 false).buffer[j]? = some 0) ∧
    ∀ ws : List Write, (∀ w ∈ ws, w.inRange (init initial 2 2 false) = true) →
      ∃ s', drawBufferToDisplay (runWrites (init initial 2 2 false) ws) = some s' ∧
        ∀ j : Nat, j < 2 * 2 →
          s'.display[j]? = some
            (match lastWriteAt (init initial 2 2 false) ws j with
            | some w => canvasPixel (pixelOfColor w.color)
            | none => ⟨0, 0, 0, 0⟩) ∧
          (∀ w : Write, lastWriteAt (init initial 2 2 false) ws j = some w →
            (pixelOfColor w.color).a = 255 →
            s'.display[j]? = some (pixelOfColor w.color))) :=
  ⟨by decide, C12_fresh_grid_transparent initial 2 2 false (by decide) (by decide)⟩

/-- C13: a full-grid direct fill, then a flush of the untouched buffer. On a
freshly initialised grid of positive `width` and `height`, after
`drawRectToDisplay(0, 0, width, height, style)` every display pixel `(x, y)`
shows what the style paints there on the cleared canvas (its color),
`isDisplayDirty` is true, `isBufferDirty` is still false and the backing store
is all zero; `drawBufferToDisplay` then returns and sets every display pixel
to the buffer's transparent `(0,0,0,0)`, although `isBufferDirty` was false. -/
theorem C13_full_fill_then_flush (width height : Nat) (safari : Bool) (style : Style)
    (hw : 0 < width) (hh : 0 < height) :
    (∀ x y : Nat, x < width → y < height →
      (filledGrid width height safari style).display[y * width + x]?
        = some (style.paint (x : Int) (y : Int) Pixel.transparent)) ∧
    (filledGrid width height safari style).isDisplayDirty = true ∧
    (filledGrid width height safari style).isBufferDirty = false ∧
    (∀ j : Nat, j < width * height * 4 →
      (filledGrid width height safari style).buffer[j]? = some 0) ∧
    ∃ s', drawBufferToDisplay (filledGrid width height safari style) = some s' ∧
      (∀ x y : Nat, x < width → y < height →
        s'.display[y * width + x]? = some ⟨0, 0, 0, 0⟩) ∧
      s'.isBufferDirty = false ∧ s'.isDisplayDirty = true := by
  have hwf : (filledGrid width height safari style).WF :=
    drawRectToDisplay_WF _ 0 0 width height style (init_WF _ width height safari hw hh)
  refine ⟨?_, rfl, rfl, ?_, _, drawBufferToDisplay_of_WF _ hwf, ?_, rfl, rfl⟩
  · intro x y hx hy
    have hj := cell_lt width height x y hx hy
    have e1 : (y * width + x) % width = x := by
      rw [Nat.add_comm, Nat.add_mul_mod_self_right]
      exact Nat.mod_eq_of_lt hx
    have e2 : (y * width + x) / width = y := by
      rw [Nat.add_comm, Nat.add_mul_div_right _ _ hw, Nat.div_eq_of_lt hx, Nat.zero_add]
    have h := fillRect_full_cleared width height style (y * width + x) hj
    rw [e1, e2] at h
    exact h
  · intro j hj
    simp [filledGrid, drawRectToDisplay, init, List.getElem?_replicate, hj]
  · intro x y hx hy
    have hj := cell_lt width height x y hx hy
    show (blit (filledGrid width height safari style))[y * width + x]? = _
    rw [getElem?_blit _ _ hj]
    refine congrArg some ?_
    show canvasPixel (pixelAt (List.replicate (width * height * 4) 0) _) = _
    rw [pixelAt_replicate_zero]
    rfl

/-- C13 at the 2x2 scenario with the style `red`: the display is all red
after the fill and all transparent after the flush. -/
theorem C13_full_fill_then_flush_witness :
    (filledGrid 2 2 false red).display
      = [⟨255, 0, 0, 255⟩, ⟨255, 0, 0, 255⟩, ⟨255, 0, 0, 255⟩, ⟨255, 0, 0, 255⟩] ∧
    (drawBufferToDisplay (filledGrid 2 2 false red)).map State.display
      = some [⟨0, 0, 0, 0⟩, ⟨0, 0, 0, 0⟩, ⟨0, 0, 0, 0⟩, ⟨0, 0, 0, 0⟩] ∧
    ((∀ x y : Nat, x < 2 → y < 2 →
      (filledGrid 2 2 false red).display[y * 2 + x]?
        = some (red.paint (x : Int) (y : Int) Pixel.transparent)) ∧
    (filledGrid 2 2 false red).isDisplayDirty = true ∧
    (filledGrid 2 2 false red).isBufferDirty = false ∧
    (∀ j : Nat, j < 2 * 2 * 4 → (filledGrid 2 2 false red).buffer[j]? = some 0) ∧
    ∃ s', drawBufferToDisplay (filledGrid 2 2 false red) = some s' ∧
      (∀ x y : Nat, x < 2 → y < 2 → s'.display[y * 2 + x]? = some ⟨0, 0, 0, 0⟩) ∧
      s'.isBufferDirty = false ∧ s'.isDisplayDirty = true) :=
  ⟨by decide, by decide, C13_full_fill_then_flush 2 2 false red (by decide) (by decide)⟩

/-- C14: out-of-range index writes raise no error. On a state whose backing
store has `width*height*4` bytes, for every integer `i` with `i < 0` or
`i >= width*height`, `setBufferState(i, color)` (a total function: the store
is ignored by the view) leaves every byte of the backing store, and every
other field, unchanged, and still sets `isBufferDirty` to true. -/
theorem C14_out_of_range_write (s : State) (i color : Int)
    (hlen : s.buffer.length = s.width * s.height * 4)
    (hi : i < 0 ∨ (s.width : Int) * (s.height : Int) ≤ i) :
    (setBufferState s i color).buffer = s.buffer ∧
    (setBufferState s i color).isBufferDirty = true ∧
    setBufferState s i color = { s with isBufferDirty := true } := by
  have hb : writeUint32 s.buffer i color = s.buffer := by
    apply writeUint32_out_of_range
    rcases hi with h | h
    · exact Or.inl h
    · right
      rw [hlen, Nat.mul_div_cancel _ (by decide : 0 < 4)]
      push_cast
      exact h
  refine ⟨hb, rfl, ?_⟩
  simp [setBufferState, hb]

/-- C14 at concrete inputs: on a 2x2 grid holding one white pixel, stores at
index `-1` and at index `4` change no byte. -/
theorem C14_out_of_range_write_witness :
    (setBufferState (setBufferState (fresh 2 2) 3 0xFFFFFFFF) 4 0xFF0000FF).buffer
      = [0, 0, 0, 0, 0, 0, 0, 0, 0, 0, 0, 0, 255, 255, 255, 255] ∧
    ((setBufferState (setBufferState (fresh 2 2) 3 0xFFFFFFFF) (-1) 0xFF0000FF).buffer
      = (setBufferState (fresh 2 2) 3 0xFFFFFFFF).buffer ∧
    (setBufferState (setBufferState (fresh 2 2) 3 0xFFFFFFFF) (-1) 0xFF0000FF).isBufferDirty
      = true ∧
    setBufferState (setBufferState (fresh 2 2) 3 0xFFFFFFFF) (-1) 0xFF0000FF
      = { setBufferState (fresh 2 2) 3 0xFFFFFFFF with isBufferDirty := true }) :=
  ⟨by decide,
    C14_out_of_range_write (setBufferState (fresh 2 2) 3 0xFFFFFFFF) (-1) 0xFF0000FF
      (by decide) (by decide)⟩

/-- C15 fails as stated: on a fresh 1x1 grid with the mirror, after the
write of `0x00FFFFFF` and a flush, the backing store holds
`(255, 255, 255, 0)` while the mirror, encoded from the display, shows
`(0, 0, 0, 0)`. -/
theorem C15_mirror_refreshed_counterexample :
    (((drawBufferToDisplay (setBufferState (freshSafari 1 1) 0 0x00FFFFFF)).bind
      State.img).bind Image.src).map DataURL.pixels = some [⟨0, 0, 0, 0⟩] ∧
    (drawBufferToDisplay (setBufferState (freshSafari 1 1) 0 0x00FFFFFF)).map render
      = some [⟨255, 255, 255, 0⟩] := by
  refine ⟨by decide, by decide⟩

/-- C15, amended: the compatibility mirror is refreshed from the post-flush
display. On a well-formed state `drawBufferToDisplay` returns; if the state
has a mirror image, the mirror's `src` afterwards is the encoding
(`toDataURL`) of the display as it is after the blit, not as it was before,
and its other attributes are kept; so the mirror shows what the display
shows, the canvas's rendering of the backing store, which is the store's own
bytes at every pixel whose alpha byte is 255; if the state has no mirror, none
is created. -/
theorem C15_mirror_refreshed (s : State) (h : s.WF) :
    ∃ s', drawBufferToDisplay s = some s' ∧
      (∀ im : Image, s.img = some im →
        s'.img = some { im with src := some (toDataURL s') }) ∧
      (toDataURL s').pixels = s'.display ∧ s'.display = blit s ∧
      (∀ j : Nat, j < s.width * s.height → (pixelAt s.buffer j).a = 255 →
        (toDataURL s').pixels[j]? = some (pixelAt s.buffer j)) ∧
      (s.img = none → s'.img = none) := by
  refine ⟨_, drawBufferToDisplay_of_WF s h, ?_, rfl, rfl, ?_, ?_⟩
  · intro im him
    simp [him, toDataURL]
  · intro j hj ha
    show (blit s)[j]? = _
    exact (getElem?_blit s j hj).trans (congrArg some (canvasPixel_of_alpha_full _ ha))
  · intro him
    simp [him]

/-- C15, amended, at a concrete input: a 2x2 grid with the mirror, painted
red all over directly, one pixel written; after the flush the mirror encodes
the display after the blit, not the red display from before it. -/
theorem C15_mirror_refreshed_witness :
    (((drawBufferToDisplay
        (setBufferState (filledGrid 2 2 true red) 1 0xFF00FF00)).bind State.img).bind
      Image.src).map DataURL.pixels
      = some [⟨0, 0, 0, 0⟩, ⟨0, 255, 0, 255⟩, ⟨0, 0, 0, 0⟩, ⟨0, 0, 0, 0⟩] ∧
    (drawBufferToDisplay (setBufferState (fresh 2 2) 1 0xFF00FF00)).map State.img
      = some none ∧
    (∃ s', drawBufferToDisplay (setBufferState (filledGrid 2 2 true red) 1 0xFF00FF00)
        = some s' ∧
      (∀ im : Image, (setBufferState (filledGrid 2 2 true red) 1 0xFF00FF00).img = some im →
        s'.img = some { im with src := some (toDataURL s') }) ∧
      (toDataURL s').pixels = s'.display ∧
      s'.display = blit (setBufferState (filledGrid 2 2 true red) 1 0xFF00FF00) ∧
      (∀ j : Nat, j < (setBufferState (filledGrid 2 2 true red) 1 0xFF00FF00).width *
          (setBufferState (filledGrid 2 2 true red) 1 0xFF00FF00).height →
        (pixelAt (setBufferState (filledGrid 2 2 true red) 1 0xFF00FF00).buffer j).a = 255 →
        (toDataURL s').pixels[j]?
          = some (pixelAt (setBufferState (filledGrid 2 2 true red) 1 0xFF00FF00).buffer j)) ∧
      ((setBufferState (filledGrid 2 2 true red) 1 0xFF00FF00).img = none →
        s'.img = none)) :=
  ⟨by decide, by decide,
    C15_mirror_refreshed _
      (setBufferState_WF _ 1 _
        (drawRectToDisplay_WF _ 0 0 2 2 red (init_WF _ 2 2 true (by decide) (by decide))))⟩

/-- C16 fails as stated: at width 3 the engine computes
`getIndexFromCoords(0 + 3, 2^52 + 1)` as `3 * 2^52 + 8` (the product
`3 * 2^52 + 3` and then the sum `3 * 2^52 + 7` are each rounded to an even
double) but `getIndexFromCoords(0, 2^52 + 2)` as `3 * 2^52 + 6`. -/
theorem C16_index_aliasing_counterexample :
    (fresh 3 1).width = 3 ∧
    getIndexFromCoordsF64 (fresh 3 1) (0 + 3) (2 ^ 52 + 1) = 3 * 2 ^ 52 + 8 ∧
    getIndexFromCoordsF64 (fresh 3 1) 0 (2 ^ 52 + 1 + 1) = 3 * 2 ^ 52 + 6 := by
  refine ⟨by decide, by decide, by decide⟩

/-- C16, amended: without the coordinate precondition the index map aliases
pixels. For all integers `x`, `y` for which the products `y*width` and
`(y+1)*width` and the sum `(y+1)*width + x` stay below `2^53` in magnitude
(so that the engine's doubles are exact), `getIndexFromCoords(x + width, y)`
and `getIndexFromCoords(x, y + 1)` are both `(y+1)*width + x`, so
`drawTileToBuffer(x + width, y, color)` gives exactly the state of
`drawTileToBuffer(x, y + 1, color)`; when `(x, y + 1)` is a cell of the grid,
the out-of-range call thus stores the color at pixel index
`(y+1)*width + x`, that cell of the next row. -/
theorem C16_index_aliasing (s : State) (x y color : Int)
    (h1 : (y * (s.width : Int)).natAbs < 2 ^ 53)
    (h2 : ((y + 1) * (s.width : Int)).natAbs < 2 ^ 53)
    (h3 : ((y + 1) * (s.width : Int) + x).natAbs < 2 ^ 53) :
    getIndexFromCoordsF64 s (x + (s.width : Int)) y = getIndexFromCoordsF64 s x (y + 1) ∧
    getIndexFromCoordsF64 s x (y + 1) = (y + 1) * (s.width : Int) + x ∧
    getIndexFromCoordsF64 s (x + (s.width : Int)) y
      = getIndexFromCoords s (x + (s.width : Int)) y ∧
    getIndexFromCoordsF64 s x (y + 1) = getIndexFromCoords s x (y + 1) ∧
    drawTileToBuffer s (x + (s.width : Int)) y color = drawTileToBuffer s x (y + 1) color ∧
    (s.buffer.length = s.width * s.height * 4 → 0 ≤ x → x < (s.width : Int) → 0 ≤ y →
      y + 1 < (s.height : Int) →
      pixelAt (drawTileToBuffer s (x + (s.width : Int)) y color).buffer
        ((y.toNat + 1) * s.width + x.toNat) = pixelOfColor color) := by
  have e : getIndexFromCoords s (x + (s.width : Int)) y = getIndexFromCoords s x (y + 1) := by
    unfold getIndexFromCoords
    ring
  have e3 : y * (s.width : Int) + (x + (s.width : Int)) = (y + 1) * (s.width : Int) + x := by
    ring
  have f1 : getIndexFromCoordsF64 s (x + (s.width : Int)) y
      = getIndexFromCoords s (x + (s.width : Int)) y :=
    getIndexFromCoordsF64_exact s _ y h1 (by rw [e3]; exact h3)
  have f2 : getIndexFromCoordsF64 s x (y + 1) = getIndexFromCoords s x (y + 1) :=
    getIndexFromCoordsF64_exact s x (y + 1) h2 h3
  refine ⟨by rw [f1, f2, e], by rw [f2]; rfl, f1, f2, by simp [drawTileToBuffer, e], ?_⟩
  intro hlen hx0 hx hy0 hy
  obtain ⟨hi0, hi⟩ := getIndexFromCoords_range s x (y + 1) hx0 hx (by omega) hy
  have hj : getIndexFromCoords s x (y + 1)
      = (((y.toNat + 1) * s.width + x.toNat : Nat) : Int) := by
    unfold getIndexFromCoords
    push_cast
    rw [Int.toNat_of_nonneg hy0, Int.toNat_of_nonneg hx0]
  simp only [drawTileToBuffer, e]
  rw [pixelAt_setBufferState s _ color _ hlen hi0 hi, if_pos hj]

/-- C16, amended, at a concrete input: on a fresh 2x2 grid
`drawTileToBuffer(2, 0, c)` writes the pixel `(0, 1)`, index 2. -/
theorem C16_index_aliasing_witness :
    (drawTileToBuffer (fresh 2 2) 2 0 0xFF0000FF).buffer
      = [0, 0, 0, 0, 0, 0, 0, 0, 255, 0, 0, 255, 0, 0, 0, 0] ∧
    (drawTileToBuffer (fresh 2 2) 2 0 0xFF0000FF).buffer
      = (drawTileToBuffer (fresh 2 2) 0 1 0xFF0000FF).buffer ∧
    getIndexFromCoordsF64 (fresh 2 2) (0 + 2) 0 = 2 ∧
    (getIndexFromCoordsF64 (fresh 2 2) (0 + ((fresh 2 2).width : Int)) 0
        = getIndexFromCoordsF64 (fresh 2 2) 0 (0 + 1) ∧
      getIndexFromCoordsF64 (fresh 2 2) 0 (0 + 1) = (0 + 1) * ((fresh 2 2).width : Int) + 0 ∧
      getIndexFromCoordsF64 (fresh 2 2) (0 + ((fresh 2 2).width : Int)) 0
        = getIndexFromCoords (fresh 2 2) (0 + ((fresh 2 2).width : Int)) 0 ∧
      getIndexFromCoordsF64 (fresh 2 2) 0 (0 + 1) = getIndexFromCoords (fresh 2 2) 0 (0 + 1) ∧
      drawTileToBuffer (fresh 2 2) (0 + ((fresh 2 2).width : Int)) 0 0xFF0000FF
        = drawTileToBuffer (fresh 2 2) 0 (0 + 1) 0xFF0000FF ∧
      ((fresh 2 2).buffer.length = (fresh 2 2).width * (fresh 2 2).height * 4 →
        (0 : Int) ≤ 0 → (0 : Int) < ((fresh 2 2).width : Int) → (0 : Int) ≤ 0 →
        (0 : Int) + 1 < ((fresh 2 2).height : Int) →
        pixelAt (drawTileToBuffer (fresh 2 2) (0 + ((fresh 2 2).width : Int)) 0
            0xFF0000FF).buffer
          (((0 : Int).toNat + 1) * (fresh 2 2).width + (0 : Int).toNat)
          = pixelOfColor 0xFF0000FF)) :=
  ⟨by decide, by decide, by decide,
    C16_index_aliasing (fresh 2 2) 0 0 0xFF0000FF (by decide) (by decide) (by decide)⟩

/-- C17: stored colors are reduced modulo `2^32`. For every integer color `c`
and every integer `k`, `setBufferState(i, c + k*2^32)` gives the state of
`setBufferState(i, c)`; for an in-range index `i` the packed-word view then
holds `c mod 2^32` at `i`, and the four bytes read back are the four bytes of
`c mod 2^32`, low byte first. -/
theorem C17_color_mod_2_32 (s : State) (i c k : Int) :
    setBufferState s i (c + k * 2 ^ 32) = setBufferState s i c ∧
    (s.buffer.length = s.width * s.height * 4 → 0 ≤ i →
      i < (s.width : Int) * (s.height : Int) →
      readUint32 (setBufferState s i c).buffer i.toNat = (c % 2 ^ 32).toNat ∧
      pixelAt (setBufferState s i c).buffer i.toNat =
        ⟨(c % 2 ^ 32).toNat % 256, (c % 2 ^ 32).toNat / 2 ^ 8 % 256,
          (c % 2 ^ 32).toNat / 2 ^ 16 % 256, (c % 2 ^ 32).toNat / 2 ^ 24 % 256⟩) := by
  constructor
  · simp only [setBufferState, writeUint32, toUint32_add_mul c k]
  · intro hlen hi0 hi
    have hp : pixelAt (setBufferState s i c).buffer i.toNat = pixelOfColor c := by
      rw [pixelAt_setBufferState s i c _ hlen hi0 hi, if_pos (Int.toNat_of_nonneg hi0).symm]
    exact ⟨readUint32_of_pixelAt _ _ c hp, hp⟩

/-- C17 at concrete inputs: on a fresh 1x1 grid the color `-1` is stored as
`0xFFFFFFFF`, and `2^32 + 0xFF0000FF` as `0xFF0000FF`. -/
theorem C17_color_mod_2_32_witness :
    (setBufferState (fresh 1 1) 0 (-1)).buffer = [255, 255, 255, 255] ∧
    (setBufferState (fresh 1 1) 0 (2 ^ 32 + 0xFF0000FF)).buffer = [255, 0, 0, 255] ∧
    readUint32 (setBufferState (fresh 1 1) 0 (-1)).buffer 0 = 0xFFFFFFFF ∧
    (readUint32 (setBufferState (fresh 1 1) 0 (-1)).buffer (0 : Int).toNat
        = ((-1 : Int) % 2 ^ 32).toNat ∧
      pixelAt (setBufferState (fresh 1 1) 0 (-1)).buffer (0 : Int).toNat =
        ⟨((-1 : Int) % 2 ^ 32).toNat % 256, ((-1 : Int) % 2 ^ 32).toNat / 2 ^ 8 % 256,
          ((-1 : Int) % 2 ^ 32).toNat / 2 ^ 16 % 256,
          ((-1 : Int) % 2 ^ 32).toNat / 2 ^ 24 % 256⟩) :=
  ⟨by decide, by decide, by decide,
    (C17_color_mod_2_32 (fresh 1 1) 0 (-1) 0).2 (by decide) (by decide) (by decide)⟩

/-- C18: `isDisplayDirty` is never cleared. In every state of the module
object reached from the object literal by a sequence of calls (`init`, `tick`,
`drawTileAt`, `drawTileToDisplay`, `drawRectToDisplay`, `clearRectFromDisplay`,
`drawTileToBuffer`, `setBufferState`, `drawBufferToDisplay`), once
`isDisplayDirty` is true it is true after every further sequence of calls; in
particular `drawBufferToDisplay`, whenever it returns, has left
`isDisplayDirty` as it was, and on a well-formed state with the flag set it
does return, with the display showing the canvas's rendering of the backing
store and `isDisplayDirty` still true. -/
theorem C18_display_dirty_never_cleared (cs cs' : List Call) :
    (objectDisplayDirty (runCalls none cs) = true →
      objectDisplayDirty (runCalls none (cs ++ cs')) = true) ∧
    (∀ s s' : State, drawBufferToDisplay s = some s' →
      s'.isDisplayDirty = s.isDisplayDirty) ∧
    (∀ s : State, s.WF → s.isDisplayDirty = true →
      ∃ s', drawBufferToDisplay s = some s' ∧ s'.display = blit s' ∧
        s'.isDisplayDirty = true) := by
  refine ⟨?_, ?_, ?_⟩
  · intro h
    rw [runCalls_append]
    exact (runCalls_fields cs' _).1 h
  · intro s s' hs
    exact (drawBufferToDisplay_fields s s' hs).2.2.1
  · intro s hwf hd
    exact ⟨_, drawBufferToDisplay_of_WF s hwf, rfl, hd⟩

/-- C18 at a concrete run: `init`, a direct draw, then a write, a tick, a
flush, a second `init` and a clear; the flag is set by the draw and is still
set at the end, also right after the flush. -/
theorem C18_display_dirty_never_cleared_witness :
    objectDisplayDirty (runCalls none [.op (.init 2 2 false)]) = false ∧
    objectDisplayDirty (runCalls none
      [.op (.init 2 2 false), .op (.drawTileToDisplay 0 0 red)]) = true ∧
    objectDisplayDirty (runCalls none
      ([.op (.init 2 2 false), .op (.drawTileToDisplay 0 0 red)] ++
        [.op (.setBufferState 1 0xFF00FF00), .tick, .drawBufferToDisplay])) = true ∧
    objectDisplayDirty (runCalls none
      ([.op (.init 2 2 false), .op (.drawTileToDisplay 0 0 red)] ++
        [.op (.setBufferState 1 0xFF00FF00), .tick, .drawBufferToDisplay,
          .op (.init 3 1 true), .op (.clearRectFromDisplay 0 0 1 1)])) = true :=
  ⟨by decide, by decide, by decide,
    (C18_display_dirty_never_cleared
      [.op (.init 2 2 false), .op (.drawTileToDisplay 0 0 red)]
      [.op (.setBufferState 1 0xFF00FF00), .tick, .drawBufferToDisplay,
        .op (.init 3 1 true), .op (.clearRectFromDisplay 0 0 1 1)]).1 (by decide)⟩

end Canvasse
